import Mathlib

/-!
Verification development for the STOCHASTIX-TWIN simulation core.

The Python source (backend/simulation/...) is shallowly embedded here:

* Python `int` becomes `ℤ`; Python `float` becomes `ℚ` (exact arithmetic on
  the rational values the program manipulates; no claim in scope depends on
  floating-point rounding).
* `numpy.random.Generator` becomes `NpRng`: an oracle holding one stream per
  primitive draw plus a cursor.  Each primitive call consumes exactly one
  cursor tick, so the order in which draws are consumed is observable, as it
  is for the shared numpy generator.  The numpy library guarantees that
  `Generator.poisson` returns a non-negative integer and that
  `Generator.lognormal` (the exponential of a normal draw) returns a
  non-negative float; those library contracts are expressed in the stream
  types.
* functions that `raise ValueError` become `Except SimError` values, with the
  error constructors named after the specification's error taxonomy
  (`InvalidParameter`, `InvalidPolicy`, `InvalidReplicationCount`); simpy's
  rejection of `Environment.run(until=t)` for `t ≤ now` is `untilNotInFuture`.
* the simpy engine of `runner.py` becomes an explicit event queue ordered by
  the key `(time, priority, event id)`, exactly the ordering of simpy's event
  heap (priority 0 = `URGENT`, used by process-`Initialize` events; priority
  1 = `NORMAL`, used by timeouts).  Creating a process schedules an URGENT
  `Initialize` event at the current time, and the process body only runs (and
  only allocates the event id of its first timeout) when that event is
  popped, as in simpy.  The engine recursion carries explicit fuel; a run
  that exhausts the fuel reports `outOfFuel` instead of a result, so every
  `Except.ok` result corresponds to a run the engine actually completed.
-/

set_option maxHeartbeats 1000000

deriving instance DecidableEq for Except

inductive SimError where
  | invalidParameter : SimError
  | invalidPolicy : SimError
  | invalidReplicationCount : SimError
  | untilNotInFuture : SimError
  | outOfFuel : SimError
deriving DecidableEq, Repr

/-- Inventory bookkeeping for a single location
(`backend/simulation/actors/base.py`, `InventoryState`). -/
structure InventoryState where
  on_hand : ℤ
  backorder : ℤ
  on_order : ℤ
deriving DecidableEq, Repr

/-- `InventoryState.inventory_position`: on-hand + on-order − backorder. -/
def InventoryState.inventory_position (inv : InventoryState) : ℤ :=
  inv.on_hand + inv.on_order - inv.backorder

/-- The store actor (`backend/simulation/actors/store.py`).  The simpy `env`
and the display `name` fields carry no behavior and are omitted. -/
structure Store where
  inventory : InventoryState
  demand_units : ℤ
  fulfilled_units : ℤ
  stockout_days : ℤ
  orders_placed : ℤ
deriving DecidableEq, Repr

/-- `Store.consume_demand`: clamp the quantity at 0, fulfil what on-hand
stock allows, route the unmet remainder into backorder and count at most one
stockout day. -/
def Store.consume_demand (st : Store) (demand_qty : ℤ) : Store :=
  let q := max 0 demand_qty
  let fulfilled := min st.inventory.on_hand q
  let unmet := q - fulfilled
  { st with
    demand_units := st.demand_units + q
    fulfilled_units := st.fulfilled_units + fulfilled
    inventory := { st.inventory with
      on_hand := st.inventory.on_hand - fulfilled
      backorder := st.inventory.backorder + (if unmet > 0 then unmet else 0) }
    stockout_days := st.stockout_days + (if unmet > 0 then 1 else 0) }

/-- `Store.receive`: no-op for a non-positive quantity; otherwise clear
backorder first, then add the remainder to on-hand stock. -/
def Store.receive (st : Store) (quantity : ℤ) : Store :=
  if quantity ≤ 0 then st
  else if st.inventory.backorder > 0 then
    let used := min st.inventory.backorder quantity
    { st with inventory := { st.inventory with
        backorder := st.inventory.backorder - used
        on_hand := st.inventory.on_hand + (quantity - used) } }
  else
    { st with inventory := { st.inventory with
        on_hand := st.inventory.on_hand + quantity } }

/-- The distribution-center actor
(`backend/simulation/actors/distribution_center.py`). -/
structure DistributionCenter where
  inventory : InventoryState
  orders_placed : ℤ
deriving DecidableEq, Repr

/-- `DistributionCenter.receive`: no-op for a non-positive quantity, else add
to on-hand stock (the DC has no backorder handling). -/
def DistributionCenter.receive (dc : DistributionCenter) (quantity : ℤ) :
    DistributionCenter :=
  if quantity ≤ 0 then dc
  else { dc with inventory := { dc.inventory with
          on_hand := dc.inventory.on_hand + quantity } }

/-- `DistributionCenter.ship_to_store`: ship `min(on_hand, quantity)` (0 for a
non-positive request) and return the pair (shipped quantity, updated DC). -/
def DistributionCenter.ship_to_store (dc : DistributionCenter) (quantity : ℤ) :
    ℤ × DistributionCenter :=
  if quantity ≤ 0 then (0, dc)
  else
    let shipped := min dc.inventory.on_hand quantity
    (shipped, { dc with inventory := { dc.inventory with
        on_hand := dc.inventory.on_hand - shipped } })

/-- Oracle model of `numpy.random.Generator`: one value stream per primitive
plus a shared cursor.  `poissonStream` yields naturals and `lognStream`
yields non-negative rationals, expressing the numpy library contracts that a
Poisson draw is a non-negative integer and a lognormal draw (the exponential
of a normal draw) is a non-negative float. -/
structure NpRng where
  poissonStream : ℕ → ℕ
  lognStream : ℕ → {q : ℚ // 0 ≤ q}
  uniformStream : ℕ → ℚ
  cursor : ℕ

/-- One `Generator.poisson` draw: consume a cursor tick. -/
def NpRng.poisson (rng : NpRng) : ℤ × NpRng :=
  ((rng.poissonStream rng.cursor : ℤ), { rng with cursor := rng.cursor + 1 })

/-- One `Generator.lognormal` draw: consume a cursor tick.  The value of the
draw is the oracle's; the (irrational) `mu`/`sigma` parameters cannot change
the modelled value and are not passed. -/
def NpRng.lognormal (rng : NpRng) : ℚ × NpRng :=
  ((rng.lognStream rng.cursor).val, { rng with cursor := rng.cursor + 1 })

/-- One `Generator.random` draw: consume a cursor tick. -/
def NpRng.random (rng : NpRng) : ℚ × NpRng :=
  (rng.uniformStream rng.cursor, { rng with cursor := rng.cursor + 1 })

/-- `poisson_demand` (`backend/simulation/distributions.py`): reject a
negative intensity, otherwise draw once from the Poisson primitive. -/
def poisson_demand (rng : NpRng) (lam : ℚ) : Except SimError (ℤ × NpRng) :=
  if lam < 0 then Except.error SimError.invalidParameter
  else Except.ok rng.poisson

/-- `lognormal_days` composed with `_lognormal_mu_sigma_from_mean_std`
(`backend/simulation/distributions.py`).  The helper rejects
`mean ≤ 0` and `std < 0`, returns `sigma = 0` exactly when `std = 0`, and for
`std > 0` computes `sigma = sqrt(ln(1 + std²/mean²)) > 0`; `lognormal_days`
then returns `mean_days` exactly when `sigma = 0` and otherwise draws from
the lognormal primitive.  Since for real arithmetic `sigma = 0 ↔ std = 0`,
the branch on `sigma` is embedded as a branch on `std_days`, and the
irrational `mu`/`sigma` values (which only parameterize the oracle draw) are
not materialized. -/
def lognormal_days (rng : NpRng) (mean_days std_days : ℚ) :
    Except SimError (ℚ × NpRng) :=
  if mean_days ≤ 0 then Except.error SimError.invalidParameter
  else if std_days < 0 then Except.error SimError.invalidParameter
  else if std_days = 0 then Except.ok (mean_days, rng)
  else Except.ok rng.lognormal

/-- `disruption_delay` (`backend/simulation/chaos/events.py`): validate the
probability and the delay, short-circuit to 0 without consuming a draw when
either is zero, otherwise run one Bernoulli trial. -/
def disruption_delay (rng : NpRng) (probability_per_shipment delay_days : ℚ) :
    Except SimError (ℚ × NpRng) :=
  if probability_per_shipment < 0 ∨ 1 < probability_per_shipment then
    Except.error SimError.invalidParameter
  else if delay_days < 0 then Except.error SimError.invalidParameter
  else if probability_per_shipment = 0 ∨ delay_days = 0 then Except.ok (0, rng)
  else
    let u := rng.random
    Except.ok ((if u.1 < probability_per_shipment then delay_days else 0), u.2)

/-- `order_up_to_sS` (`backend/simulation/logic/policy.py`). -/
def order_up_to_sS (inventory_position s S : ℤ) : Except SimError ℤ :=
  if s > S then Except.error SimError.invalidPolicy
  else if inventory_position ≤ s then Except.ok (max 0 (S - inventory_position))
  else Except.ok 0

/-- `DemandPeak` (`backend/simulation/models.py`). -/
structure DemandPeak where
  start_day : ℤ
  end_day : ℤ
  multiplier : ℚ
deriving DecidableEq, Repr

/-- `SimulationConfig` (`backend/simulation/models.py`).  A plain frozen
dataclass: no field is validated at construction. -/
structure SimulationConfig where
  days : ℤ
  demand_lambda_per_day : ℚ
  demand_peaks : List DemandPeak
  s_store : ℤ
  S_store : ℤ
  s_dc : ℤ
  S_dc : ℤ
  initial_on_hand_store : ℤ
  initial_on_hand_dc : ℤ
  lead_time_mean_days : ℚ
  lead_time_std_days : ℚ
  disruption_probability_per_shipment : ℚ
  disruption_delay_days : ℚ
  holding_cost_per_unit_per_day : ℚ
  seed : Option ℤ
deriving DecidableEq, Repr

/-- `_demand_multiplier_for_day` (`backend/simulation/runner.py`): product of
the multipliers of the peaks whose inclusive interval contains the day.  (The
leading underscore of the Python name is dropped.) -/
def demand_multiplier_for_day (config : SimulationConfig) (day : ℤ) : ℚ :=
  config.demand_peaks.foldl
    (fun m peak =>
      if peak.start_day ≤ day ∧ day ≤ peak.end_day then m * peak.multiplier
      else m)
    1

/-- One recorded timeseries row (`runner.py`, the dict appended each day). -/
structure TimeRow where
  day : ℚ
  store_on_hand : ℚ
  store_backorder : ℚ
  store_on_order : ℚ
  dc_on_hand : ℚ
  dc_on_order : ℚ
deriving DecidableEq, Repr

/-- `KPIs` (`backend/simulation/models.py`). -/
structure KPIs where
  service_level : ℚ
  fill_rate : ℚ
  demand_units : ℤ
  fulfilled_units : ℤ
  stockout_days : ℤ
  avg_on_hand_store : ℚ
  avg_on_hand_dc : ℚ
  avg_backorder_store : ℚ
  total_orders_store : ℤ
  total_orders_dc : ℤ
deriving DecidableEq, Repr

/-- The field names of `KPIs`, i.e. the keys of `asdict(kpis)` used by
`monte_carlo` to build its per-field matrix. -/
inductive KPIField where
  | service_level : KPIField
  | fill_rate : KPIField
  | demand_units : KPIField
  | fulfilled_units : KPIField
  | stockout_days : KPIField
  | avg_on_hand_store : KPIField
  | avg_on_hand_dc : KPIField
  | avg_backorder_store : KPIField
  | total_orders_store : KPIField
  | total_orders_dc : KPIField
deriving DecidableEq, Repr

/-- `float(getattr(kpis, field))`: the numeric value of one KPI field. -/
def KPIs.get (k : KPIs) : KPIField → ℚ
  | KPIField.service_level => k.service_level
  | KPIField.fill_rate => k.fill_rate
  | KPIField.demand_units => (k.demand_units : ℚ)
  | KPIField.fulfilled_units => (k.fulfilled_units : ℚ)
  | KPIField.stockout_days => (k.stockout_days : ℚ)
  | KPIField.avg_on_hand_store => k.avg_on_hand_store
  | KPIField.avg_on_hand_dc => k.avg_on_hand_dc
  | KPIField.avg_backorder_store => k.avg_backorder_store
  | KPIField.total_orders_store => (k.total_orders_store : ℚ)
  | KPIField.total_orders_dc => (k.total_orders_dc : ℚ)

/-- `SimulationResult` (`backend/simulation/models.py`). -/
structure SimulationResult where
  config : SimulationConfig
  kpis : KPIs
  timeseries : List TimeRow
deriving DecidableEq, Repr

/-- `MonteCarloSummary` (`backend/simulation/models.py`).  The source stores
`kpi_std[f] = np.std(matrix[f], ddof=1)` for more than one replication and
`0.0` otherwise; that standard deviation is the square root of the
Bessel-corrected sample variance, and the square root of a rational is
irrational in general, so the summary here records the exact radicand
`kpi_var` (with `kpi_var = 0` in the one-replication case, where the source's
reported standard deviation is exactly `0.0 = sqrt 0`). -/
structure MonteCarloSummary where
  replications : ℤ
  kpi_mean : KPIField → ℚ
  kpi_var : KPIField → ℚ

/-- `MonteCarloResult` (`backend/simulation/models.py`). -/
structure MonteCarloResult where
  config : SimulationConfig
  summary : MonteCarloSummary
  samples : List KPIs

/-- The two locations that can receive a shipment.  The source's duck-typed
`_Receivable` protocol is closed over exactly these two actors. -/
inductive Location where
  | store : Location
  | dc : Location
deriving DecidableEq, Repr

/-- The events of the embedded engine.

* `daily d` — the daily orchestrator resuming at the start of day `d`
  (initially the process `Initialize`, afterwards its `timeout(1.0)`).
* `arrivalInit dest qty delay schedDay` — the `Initialize` event of an
  `arrival_process` created by `schedule_inbound_shipment` on day `schedDay`;
  running it allocates the delivery timeout `delay` days later.
* `arrival dest qty schedDay` — the delivery timeout firing: decrement the
  destination's `on_order` by `qty` and call its `receive`. -/
inductive SimEvent where
  | daily : ℤ → SimEvent
  | arrivalInit : Location → ℤ → ℚ → ℤ → SimEvent
  | arrival : Location → ℤ → ℤ → SimEvent
deriving DecidableEq, Repr

/-- One entry of the event queue: due time, simpy priority (0 = `URGENT`,
1 = `NORMAL`), event id (simpy's monotone counter), payload. -/
structure QEntry where
  time : ℚ
  prio : ℕ
  eid : ℕ
  ev : SimEvent
deriving DecidableEq, Repr

/-- The total order of simpy's event heap: lexicographic on
(time, priority, event id). -/
def qle (a b : QEntry) : Prop :=
  a.time < b.time ∨
    (a.time = b.time ∧
      (a.prio < b.prio ∨ (a.prio = b.prio ∧ a.eid ≤ b.eid)))

instance : DecidableRel qle := fun a b => by
  unfold qle; infer_instance

instance : IsTotal QEntry qle := by
  constructor
  intro a b
  rcases lt_trichotomy a.time b.time with h | h | h
  · exact Or.inl (Or.inl h)
  · rcases Nat.lt_trichotomy a.prio b.prio with hp | hp | hp
    · exact Or.inl (Or.inr ⟨h, Or.inl hp⟩)
    · rcases Nat.le_total a.eid b.eid with he | he
      · exact Or.inl (Or.inr ⟨h, Or.inr ⟨hp, he⟩⟩)
      · exact Or.inr (Or.inr ⟨h.symm, Or.inr ⟨hp.symm, he⟩⟩)
    · exact Or.inr (Or.inr ⟨h.symm, Or.inl hp⟩)
  · exact Or.inr (Or.inl h)

instance : IsTrans QEntry qle := by
  constructor
  intro a b c hab hbc
  rcases hab with h1 | ⟨e1, h1⟩
  · rcases hbc with h2 | ⟨e2, _⟩
    · exact Or.inl (h1.trans h2)
    · exact Or.inl (e2 ▸ h1)
  · rcases hbc with h2 | ⟨e2, h2⟩
    · exact Or.inl (e1 ▸ h2)
    · refine Or.inr ⟨e1.trans e2, ?_⟩
      rcases h1 with p1 | ⟨ep1, en1⟩
      · rcases h2 with p2 | ⟨ep2, _⟩
        · exact Or.inl (p1.trans p2)
        · exact Or.inl (ep2 ▸ p1)
      · rcases h2 with p2 | ⟨ep2, en2⟩
        · exact Or.inl (ep1 ▸ p2)
        · exact Or.inr ⟨ep1.trans ep2, en1.trans en2⟩

/-- Push one event onto the queue, keeping it sorted by the heap key. -/
def insertQ (e : QEntry) (q : List QEntry) : List QEntry :=
  List.orderedInsert qle e q

/-- Whether an entry is a daily-orchestrator event. -/
def isDaily (e : QEntry) : Bool :=
  match e.ev with
  | SimEvent.daily _ => true
  | _ => false

/-- The pipeline quantity an entry represents for a location: the carried
quantity of a scheduled-but-undelivered shipment headed there, else 0. -/
def arrivalQtyFor (loc : Location) (e : QEntry) : ℤ :=
  match e.ev with
  | SimEvent.daily _ => 0
  | SimEvent.arrivalInit dest qty _ _ => if dest = loc then qty else 0
  | SimEvent.arrival dest qty _ => if dest = loc then qty else 0

/-- Total scheduled-but-undelivered quantity headed for a location. -/
def pendingQty (loc : Location) (q : List QEntry) : ℤ :=
  (q.map (arrivalQtyFor loc)).sum

/-- Observable trace of a run: each demand draw (day, drawn quantity) and
each applied arrival (destination, quantity, scheduling day, due time), in
execution order. -/
inductive TraceEvent where
  | demandDrawn : ℤ → ℤ → TraceEvent
  | arrivalApplied : Location → ℤ → ℤ → ℚ → TraceEvent
deriving DecidableEq, Repr

/-- The simulated time at which a trace event happened. -/
def traceTime : TraceEvent → ℚ
  | TraceEvent.demandDrawn d _ => (d : ℚ)
  | TraceEvent.arrivalApplied _ _ _ due => due

/-- Full state of one replication: the two actors, the pending event queue,
simpy's event-id counter, the recorded timeseries, the observable trace and
the random generator. -/
structure SimState where
  store : Store
  dc : DistributionCenter
  queue : List QEntry
  nextEid : ℕ
  timeseries : List TimeRow
  trace : List TraceEvent
  rng : NpRng

/-- Add to (or, with a negative argument, subtract from) the `on_order` of
one location. -/
def SimState.addOnOrder (st : SimState) (loc : Location) (qty : ℤ) : SimState :=
  match loc with
  | Location.store =>
    { st with store := { st.store with inventory := { st.store.inventory with
        on_order := st.store.inventory.on_order + qty } } }
  | Location.dc =>
    { st with dc := { st.dc with inventory := { st.dc.inventory with
        on_order := st.dc.inventory.on_order + qty } } }

/-- Dispatch `receive` to the selected actor. -/
def SimState.receiveAt (st : SimState) (loc : Location) (qty : ℤ) : SimState :=
  match loc with
  | Location.store => { st with store := st.store.receive qty }
  | Location.dc => { st with dc := st.dc.receive qty }

/-- `schedule_inbound_shipment` (`runner.py`): a complete no-op for a
non-positive quantity; otherwise add the quantity to the destination's
`on_order`, sample a lead time and an additive disruption delay (in that
order, from the shared generator), and create the arrival process — which
schedules its `Initialize` event (URGENT) at the current time, as
`environment.process` does in simpy. -/
def schedule_inbound_shipment (cfg : SimulationConfig) (now : ℚ) (schedDay : ℤ)
    (receiver : Location) (quantity : ℤ) (st : SimState) :
    Except SimError SimState :=
  if quantity ≤ 0 then Except.ok st
  else
    let st1 := st.addOnOrder receiver quantity
    match lognormal_days st1.rng cfg.lead_time_mean_days cfg.lead_time_std_days with
    | Except.error e => Except.error e
    | Except.ok ltp =>
      match disruption_delay ltp.2 cfg.disruption_probability_per_shipment
          cfg.disruption_delay_days with
      | Except.error e => Except.error e
      | Except.ok ddp =>
        Except.ok { st1 with
          rng := ddp.2
          queue := insertQ
            { time := now, prio := 0, eid := st1.nextEid,
              ev := SimEvent.arrivalInit receiver quantity (ltp.1 + ddp.1) schedDay }
            st1.queue
          nextEid := st1.nextEid + 1 }

/-- Step 1–2 of the day body (`daily_process` in `runner.py`): draw demand at
the peak-adjusted intensity and consume it at the store. -/
def doDemand (cfg : SimulationConfig) (d : ℤ) (st : SimState) :
    Except SimError SimState :=
  match poisson_demand st.rng
      (cfg.demand_lambda_per_day * demand_multiplier_for_day cfg d) with
  | Except.error e => Except.error e
  | Except.ok qp =>
    Except.ok { st with
      rng := qp.2
      store := st.store.consume_demand qp.1
      trace := st.trace ++ [TraceEvent.demandDrawn d qp.1] }

/-- Step 3 of the day body: if the store has backorder, ship as much of it as
the DC can and schedule the shipped part as an inbound arrival. -/
def doBackorderClearing (cfg : SimulationConfig) (d : ℤ) (st : SimState) :
    Except SimError SimState :=
  if st.store.inventory.backorder > 0 then
    let sp : ℤ × DistributionCenter := st.dc.ship_to_store st.store.inventory.backorder
    let st1 := { st with dc := sp.2 }
    if sp.1 > 0 then
      schedule_inbound_shipment cfg (d : ℚ) d Location.store sp.1 st1
    else Except.ok st1
  else Except.ok st

/-- Step 4 of the day body: evaluate the store's (s, S) policy; on a positive
order, count it, ship what the DC can (scheduling the shipped part) and add
any unshipped remainder to the store's backorder. -/
def doStoreOrder (cfg : SimulationConfig) (d : ℤ) (st : SimState) :
    Except SimError SimState :=
  match order_up_to_sS st.store.inventory.inventory_position
      cfg.s_store cfg.S_store with
  | Except.error e => Except.error e
  | Except.ok oq =>
    if oq > 0 then
      let st1 := { st with store := { st.store with
          orders_placed := st.store.orders_placed + 1 } }
      let sp : ℤ × DistributionCenter := st1.dc.ship_to_store oq
      let st2 := { st1 with dc := sp.2 }
      let addUnshipped := fun (s : SimState) =>
        if oq - sp.1 > 0 then
          { s with store := { s.store with
              inventory := { s.store.inventory with
                backorder := s.store.inventory.backorder + (oq - sp.1) } } }
        else s
      if sp.1 > 0 then
        match schedule_inbound_shipment cfg (d : ℚ) d Location.store sp.1 st2 with
        | Except.error e => Except.error e
        | Except.ok st3 => Except.ok (addUnshipped st3)
      else Except.ok (addUnshipped st2)
    else Except.ok st

/-- Step 5 of the day body: evaluate the DC's (s, S) policy; on a positive
order, count it and schedule the full quantity as an inbound arrival from the
infinite external supplier. -/
def doDcOrder (cfg : SimulationConfig) (d : ℤ) (st : SimState) :
    Except SimError SimState :=
  match order_up_to_sS st.dc.inventory.inventory_position cfg.s_dc cfg.S_dc with
  | Except.error e => Except.error e
  | Except.ok oq =>
    if oq > 0 then
      let st1 := { st with dc := { st.dc with
          orders_placed := st.dc.orders_placed + 1 } }
      schedule_inbound_shipment cfg (d : ℚ) d Location.dc oq st1
    else Except.ok st

/-- Step 7 of the day body: record the timeseries row for the day. -/
def doRecord (d : ℤ) (st : SimState) : SimState :=
  { st with timeseries := st.timeseries ++
      [{ day := (d : ℚ)
         store_on_hand := (st.store.inventory.on_hand : ℚ)
         store_backorder := (st.store.inventory.backorder : ℚ)
         store_on_order := (st.store.inventory.on_order : ℚ)
         dc_on_hand := (st.dc.inventory.on_hand : ℚ)
         dc_on_order := (st.dc.inventory.on_order : ℚ) }] }

/-- Step 8 of the day body: `yield environment.timeout(1.0)` — schedule the
next daily resumption at `d + 1` with a fresh event id. -/
def doAdvance (d : ℤ) (st : SimState) : SimState :=
  { st with
    queue := insertQ
      { time := ((d + 1 : ℤ) : ℚ), prio := 1, eid := st.nextEid,
        ev := SimEvent.daily (d + 1) }
      st.queue
    nextEid := st.nextEid + 1 }

/-- One full iteration of `daily_process` for day `d`, in the source's fixed
order: demand, backorder clearing, store order, DC order, record, advance. -/
def runDayBody (cfg : SimulationConfig) (d : ℤ) (st : SimState) :
    Except SimError SimState :=
  match doDemand cfg d st with
  | Except.error e => Except.error e
  | Except.ok st1 =>
    match doBackorderClearing cfg d st1 with
    | Except.error e => Except.error e
    | Except.ok st2 =>
      match doStoreOrder cfg d st2 with
      | Except.error e => Except.error e
      | Except.ok st3 =>
        match doDcOrder cfg d st3 with
        | Except.error e => Except.error e
        | Except.ok st4 => Except.ok (doAdvance d (doRecord d st4))

/-- Execute one popped event.  `st` already has the event removed from its
queue.  The daily event runs its body only while `d < days` (the `for day in
range(config.days)` bound); an `arrivalInit` allocates the delivery timeout
(this is where simpy assigns the delivery's event id); an `arrival` removes
the quantity from the destination's pipeline and delivers it via `receive`. -/
def execEvent (cfg : SimulationConfig) (e : QEntry) (st : SimState) :
    Except SimError SimState :=
  match e.ev with
  | SimEvent.daily d =>
    if d < cfg.days then runDayBody cfg d st else Except.ok st
  | SimEvent.arrivalInit dest qty delay schedDay =>
    Except.ok { st with
      queue := insertQ
        { time := e.time + delay, prio := 1, eid := st.nextEid,
          ev := SimEvent.arrival dest qty schedDay }
        st.queue
      nextEid := st.nextEid + 1 }
  | SimEvent.arrival dest qty schedDay =>
    let st1 := (st.addOnOrder dest (-qty)).receiveAt dest qty
    Except.ok { st1 with
      trace := st1.trace ++ [TraceEvent.arrivalApplied dest qty schedDay e.time] }

/-- The engine loop of `environment.run(until=float(config.days))`: pop the
heap minimum and execute it while its time is before `days`; the `until`
event (URGENT at time `days`, scheduled before any same-time NORMAL timeout
and before any later-created URGENT event) stops the run at the first popped
time `≥ days`.  The fuel argument bounds the recursion; exhausting it yields
`outOfFuel`, so an `Except.ok` result is a genuinely completed run. -/
def runLoop (cfg : SimulationConfig) : ℕ → SimState → Except SimError SimState
  | 0, _ => Except.error SimError.outOfFuel
  | fuel + 1, st =>
    match st.queue with
    | [] => Except.ok st
    | e :: rest =>
      if (cfg.days : ℚ) ≤ e.time then Except.ok st
      else
        match execEvent cfg e { st with queue := rest } with
        | Except.error err => Except.error err
        | Except.ok st1 => runLoop cfg fuel st1

/-- Fuel that is ample for any run: each of the `days` day bodies executes at
most 7 events (itself, up to three `arrivalInit`s and up to three
deliveries). -/
def simFuel (cfg : SimulationConfig) : ℕ :=
  (cfg.days.toNat + 1) * 8

/-- The state at `environment.run`: fresh actors at their configured initial
on-hand levels, the daily process's `Initialize` event pending at time 0, and
the generator created by the seeded factory (`np.random.default_rng`). -/
def initState (factory : Option ℤ → NpRng) (cfg : SimulationConfig) : SimState :=
  { store := { inventory := { on_hand := cfg.initial_on_hand_store,
                              backorder := 0, on_order := 0 },
               demand_units := 0, fulfilled_units := 0, stockout_days := 0,
               orders_placed := 0 }
    dc := { inventory := { on_hand := cfg.initial_on_hand_dc,
                           backorder := 0, on_order := 0 },
            orders_placed := 0 }
    queue := [{ time := 0, prio := 0, eid := 0, ev := SimEvent.daily 0 }]
    nextEid := 1
    timeseries := []
    trace := []
    rng := factory cfg.seed }

/-- `run_single` up to (but excluding) KPI assembly: simpy's
`run(until=float(days))` raises `ValueError` when `until ≤ now = 0`, so a
non-positive horizon fails before any event is processed; otherwise the
engine runs to completion. -/
def run_single_state (factory : Option ℤ → NpRng) (cfg : SimulationConfig) :
    Except SimError SimState :=
  if (cfg.days : ℚ) ≤ 0 then Except.error SimError.untilNotInFuture
  else runLoop cfg (simFuel cfg) (initState factory cfg)

/-- KPI assembly at the end of `run_single`: the service level (with the
source's `config.days > 0` guard written as in the source, inside the
subtraction), the fill rate with its zero-demand convention, and the
timeseries averages with their empty-list guard. -/
def mkResult (cfg : SimulationConfig) (st : SimState) : SimulationResult :=
  { config := cfg
    kpis :=
      { service_level :=
          1 - (if cfg.days > 0
               then (st.store.stockout_days : ℚ) / (cfg.days : ℚ) else 0)
        fill_rate :=
          if st.store.demand_units > 0
          then (st.store.fulfilled_units : ℚ) / (st.store.demand_units : ℚ)
          else 1
        demand_units := st.store.demand_units
        fulfilled_units := st.store.fulfilled_units
        stockout_days := st.store.stockout_days
        avg_on_hand_store :=
          if st.timeseries = [] then 0
          else ((st.timeseries.map (fun r => r.store_on_hand)).sum) /
            (st.timeseries.length : ℚ)
        avg_on_hand_dc :=
          if st.timeseries = [] then 0
          else ((st.timeseries.map (fun r => r.dc_on_hand)).sum) /
            (st.timeseries.length : ℚ)
        avg_backorder_store :=
          if st.timeseries = [] then 0
          else ((st.timeseries.map (fun r => r.store_backorder)).sum) /
            (st.timeseries.length : ℚ)
        total_orders_store := st.store.orders_placed
        total_orders_dc := st.dc.orders_placed }
    timeseries := st.timeseries }

/-- `run_single` (`runner.py`): run the engine and assemble the result. -/
def run_single (factory : Option ℤ → NpRng) (cfg : SimulationConfig) :
    Except SimError SimulationResult :=
  (run_single_state factory cfg).map (mkResult cfg)

/-- The per-replication config of `monte_carlo`: identical to the base except
that the seed, when present, is offset by the replication index
(`None if config.seed is None else int(config.seed) + i`). -/
def replicationConfig (cfg : SimulationConfig) (i : ℕ) : SimulationConfig :=
  { cfg with seed := cfg.seed.map (fun s => s + (i : ℤ)) }

/-- The replication loop of `monte_carlo`: run each replication in order,
collecting its KPIs; any replication failure aborts the whole run. -/
def mcRun (factory : Option ℤ → NpRng) (cfg : SimulationConfig) :
    List ℕ → Except SimError (List KPIs)
  | [] => Except.ok []
  | i :: rest =>
    match run_single factory (replicationConfig cfg i) with
    | Except.error e => Except.error e
    | Except.ok r =>
      match mcRun factory cfg rest with
      | Except.error e => Except.error e
      | Except.ok tl => Except.ok (r.kpis :: tl)

/-- `np.mean` over one KPI field's column of the sample matrix. -/
def kpiMeanOf (samples : List KPIs) (f : KPIField) : ℚ :=
  ((samples.map (fun k => k.get f)).sum) / (samples.length : ℚ)

/-- The radicand of `np.std(column, ddof=1)` when `replications > 1` (the
Bessel-corrected sample variance), and the source's literal `0.0` otherwise. -/
def kpiVarOf (samples : List KPIs) (replications : ℤ) (f : KPIField) : ℚ :=
  if 1 < replications then
    ((samples.map (fun k => (k.get f - kpiMeanOf samples f) ^ 2)).sum) /
      ((samples.length : ℚ) - 1)
  else 0

/-- `monte_carlo` (`runner.py`).  The progress callback is modelled by its
observable effect: the list of values passed to it, in call order, returned
alongside the result. -/
def monte_carlo (factory : Option ℤ → NpRng) (cfg : SimulationConfig)
    (replications : ℤ) : Except SimError (MonteCarloResult × List ℚ) :=
  if replications ≤ 0 then Except.error SimError.invalidReplicationCount
  else
    match mcRun factory cfg (List.range replications.toNat) with
    | Except.error e => Except.error e
    | Except.ok samples =>
      Except.ok
        ({ config := cfg
           summary :=
             { replications := replications
               kpi_mean := fun f => kpiMeanOf samples f
               kpi_var := fun f => kpiVarOf samples replications f }
           samples := samples },
         (List.range replications.toNat).map
           (fun i => ((i : ℚ) + 1) / (replications : ℚ)))

/-- A concrete deterministic oracle: every Poisson draw is 5, every lognormal
draw is 1, every uniform draw is 0. -/
def constRng : NpRng :=
  { poissonStream := fun _ => 5
    lognStream := fun _ => ⟨1, by norm_num⟩
    uniformStream := fun _ => 0
    cursor := 0 }

/-- A generator factory ignoring the seed (any fixed factory suffices for the
concrete runs below, which are deterministic given the oracle). -/
def cexFactory : Option ℤ → NpRng := fun _ => constRng

/-- A small concrete configuration: two days, deterministic lead time of
exactly one day (std 0), no disruptions, an initially empty store with an
order-up-to policy, and a DC that never reorders. -/
def cexCfg : SimulationConfig :=
  { days := 2
    demand_lambda_per_day := 5
    demand_peaks := []
    s_store := 0
    S_store := 10
    s_dc := 0
    S_dc := 0
    initial_on_hand_store := 0
    initial_on_hand_dc := 100
    lead_time_mean_days := 1
    lead_time_std_days := 0
    disruption_probability_per_shipment := 0
    disruption_delay_days := 0
    holding_cost_per_unit_per_day := 0
    seed := none }

/-- Throwaway result used only as a default when unwrapping an `Except` that
is in fact `ok`. -/
def junkResult : SimulationResult :=
  { config := cexCfg
    kpis := { service_level := 0, fill_rate := 0, demand_units := 0,
              fulfilled_units := 0, stockout_days := 0, avg_on_hand_store := 0,
              avg_on_hand_dc := 0, avg_backorder_store := 0,
              total_orders_store := 0, total_orders_dc := 0 }
    timeseries := [] }

/-- Claim C1 as stated: in the trace of a run, a demand draw for day `d`
never precedes the application of an arrival that was pending at day `d`'s
boundary (scheduled on an earlier day) and due at or before that boundary. -/
def DueArrivalsPrecedeDemand (tr : List TraceEvent) : Prop :=
  ∀ i j d dq dest q sd due,
    tr.get? i = some (TraceEvent.demandDrawn d dq) →
    tr.get? j = some (TraceEvent.arrivalApplied dest q sd due) →
    sd < d → due ≤ (d : ℚ) → j < i

/-- C1, counterexample: with a deterministic lead time of exactly 1.0 day the
arrivals scheduled on day 0 fall due exactly at the day-1 boundary, yet the
day-1 demand draw precedes their application: simpy assigns the delivery
timeout its event id when the arrival process is initialized, i.e. after the
day-0 body has already scheduled the day-1 resumption timeout, so at equal
due times the resumption (smaller event id) pops first. -/
theorem claim_C1_counterexample :
    ∃ tr, (run_single_state cexFactory cexCfg).map (fun s => s.trace)
        = Except.ok tr
      ∧ ¬ DueArrivalsPrecedeDemand tr := by
  refine ⟨[TraceEvent.demandDrawn 0 5, TraceEvent.demandDrawn 1 5,
           TraceEvent.arrivalApplied Location.store 5 0 1,
           TraceEvent.arrivalApplied Location.store 10 0 1],
    by with_unfolding_all decide, ?_⟩
  intro h
  have h12 := h 1 2 1 5 Location.store 5 0 1 (by with_unfolding_all decide)
    (by with_unfolding_all decide) (by with_unfolding_all decide)
    (by with_unfolding_all decide)
  omega

/-- C2, counterexample: at `days = 0` nothing is reported at all — the engine
(`environment.run(until=0.0)`) rejects the run before any KPI is computed —
so in particular no service level of 0 is reported.  (Had the KPI expression
been reached, its `config.days > 0` guard evaluates `1.0 - 0.0 = 1.0`, not
0.) -/
theorem claim_C2_counterexample :
    run_single cexFactory { cexCfg with days := 0 }
        = Except.error SimError.untilNotInFuture
      ∧ ¬ ∃ res, run_single cexFactory { cexCfg with days := 0 }
            = Except.ok res ∧ res.kpis.service_level = 0 := by
  constructor
  · with_unfolding_all decide
  · rintro ⟨res, h, -⟩
    have hh : run_single cexFactory { cexCfg with days := 0 }
        = Except.error SimError.untilNotInFuture := by with_unfolding_all decide
    rw [hh] at h
    simp at h

/-- C3: `Store.consume_demand` clamps the quantity at `max 0 qty`, adds the
clamped quantity to `demand_units`, fulfils `min on_hand q` (decrementing
on-hand and incrementing `fulfilled_units` by exactly that amount), adds the
unmet remainder to backorder exactly when it is positive, and increments
`stockout_days` by exactly 1 — never by the unmet magnitude — iff the unmet
remainder is positive. -/
theorem claim_C3_consume_demand (st : Store) (qty : ℤ) :
    (st.consume_demand qty).demand_units = st.demand_units + max 0 qty
    ∧ (st.consume_demand qty).fulfilled_units
        = st.fulfilled_units + min st.inventory.on_hand (max 0 qty)
    ∧ (st.consume_demand qty).inventory.on_hand
        = st.inventory.on_hand - min st.inventory.on_hand (max 0 qty)
    ∧ (st.consume_demand qty).inventory.backorder
        = st.inventory.backorder +
          (if 0 < max 0 qty - min st.inventory.on_hand (max 0 qty)
           then max 0 qty - min st.inventory.on_hand (max 0 qty) else 0)
    ∧ ((st.consume_demand qty).stockout_days = st.stockout_days + 1
        ↔ 0 < max 0 qty - min st.inventory.on_hand (max 0 qty))
    ∧ (¬ 0 < max 0 qty - min st.inventory.on_hand (max 0 qty)
        → (st.consume_demand qty).stockout_days = st.stockout_days)
    ∧ (st.consume_demand qty).inventory.on_order = st.inventory.on_order := by
  refine ⟨rfl, rfl, rfl, rfl, ?_, ?_, rfl⟩
  · by_cases h : 0 < max 0 qty - min st.inventory.on_hand (max 0 qty)
    · simp [Store.consume_demand, h]
    · simp [Store.consume_demand, h]
  · intro h
    simp [Store.consume_demand, h]

/-- C3, witness: a store with 3 units on hand facing demand 5 fulfils 3,
backorders 2 and books exactly one stockout day. -/
theorem claim_C3_witness :
    (({ inventory := { on_hand := 3, backorder := 0, on_order := 0 },
        demand_units := 0, fulfilled_units := 0, stockout_days := 0,
        orders_placed := 0 : Store }).consume_demand 5).stockout_days
      = (0 : ℤ) + 1
    ↔ (0 : ℤ) < max 0 5 - min 3 (max 0 5) :=
  (claim_C3_consume_demand
    { inventory := { on_hand := 3, backorder := 0, on_order := 0 },
      demand_units := 0, fulfilled_units := 0, stockout_days := 0,
      orders_placed := 0 } 5).2.2.2.2.1

/-- C4: the (s, S) policy fails with `InvalidPolicy` exactly when `s > S`,
returns `max 0 (S − position)` at or below the reorder point, returns 0
above it, and satisfies the three concrete examples from the specification. -/
theorem claim_C4_order_up_to (ip s S : ℤ) :
    (s > S → order_up_to_sS ip s S = Except.error SimError.invalidPolicy)
    ∧ (s ≤ S → ip ≤ s → order_up_to_sS ip s S = Except.ok (max 0 (S - ip)))
    ∧ (s ≤ S → s < ip → order_up_to_sS ip s S = Except.ok 0)
    ∧ order_up_to_sS 50 80 160 = Except.ok 110
    ∧ order_up_to_sS 81 80 160 = Except.ok 0
    ∧ order_up_to_sS 0 10 5 = Except.error SimError.invalidPolicy := by
  refine ⟨?_, ?_, ?_, by decide, by decide, by decide⟩
  · intro h
    simp [order_up_to_sS, h]
  · intro h1 h2
    simp [order_up_to_sS, not_lt.mpr h1, h2]
  · intro h1 h2
    simp [order_up_to_sS, not_lt.mpr h1, not_le.mpr h2]

/-- C4, witness: the policy at position 50 with (s, S) = (80, 160) orders up
to the level. -/
theorem claim_C4_witness :
    order_up_to_sS 50 80 160 = Except.ok (max 0 (160 - 50)) :=
  (claim_C4_order_up_to 50 80 160).2.1 (by norm_num) (by norm_num)

/-- C5: with valid parameters every lead-time draw is non-negative; with zero
standard deviation the draw is exactly the mean (and consumes no randomness);
invalid parameters fail with `InvalidParameter`. -/
theorem claim_C5_lognormal (rng : NpRng) (mean_days std_days : ℚ) :
    (∀ x rng2, 0 < mean_days → 0 ≤ std_days →
      lognormal_days rng mean_days std_days = Except.ok (x, rng2) → 0 ≤ x)
    ∧ (0 < mean_days → lognormal_days rng mean_days 0
        = Except.ok (mean_days, rng))
    ∧ (mean_days ≤ 0 ∨ std_days < 0 →
        lognormal_days rng mean_days std_days
          = Except.error SimError.invalidParameter) := by
  refine ⟨?_, ?_, ?_⟩
  · intro x rng2 hm _ h
    unfold lognormal_days at h
    rw [if_neg (not_le.mpr hm)] at h
    split_ifs at h with h1 h2
    · injection h with hpair
      injection hpair with hx hr
      exact le_of_le_of_eq hm.le hx
    · unfold NpRng.lognormal at h
      injection h with hpair
      injection hpair with hx hr
      exact le_of_le_of_eq (rng.lognStream rng.cursor).2 hx
  · intro hm
    unfold lognormal_days
    rw [if_neg (not_le.mpr hm), if_neg (by norm_num), if_pos rfl]
  · intro h
    unfold lognormal_days
    rcases h with h | h
    · rw [if_pos h]
    · by_cases hm : mean_days ≤ 0
      · rw [if_pos hm]
      · rw [if_neg hm, if_pos h]

/-- C5, witness: the degenerate draw at mean 7, std 0 returns exactly 7 and
is non-negative. -/
theorem claim_C5_witness :
    lognormal_days constRng 7 0 = Except.ok (7, constRng) ∧ (0 : ℚ) ≤ 7 :=
  ⟨(claim_C5_lognormal constRng 7 0).2.1 (by norm_num),
   (claim_C5_lognormal constRng 7 0).1 7 constRng (by norm_num) (by norm_num)
     ((claim_C5_lognormal constRng 7 0).2.1 (by norm_num))⟩

/-- C6: with `probability = 0` or `delay_days = 0` (and valid parameters) the
disruption helper returns exactly 0 together with the *unchanged* generator —
no draw is consumed, so every subsequent draw equals the corresponding draw
of a control run; out-of-range parameters fail with `InvalidParameter`. -/
theorem claim_C6_disruption (rng : NpRng) (p delay : ℚ) :
    (0 ≤ p → p ≤ 1 → 0 ≤ delay → (p = 0 ∨ delay = 0) →
      disruption_delay rng p delay = Except.ok (0, rng))
    ∧ (p < 0 ∨ 1 < p ∨ delay < 0 →
      disruption_delay rng p delay = Except.error SimError.invalidParameter) := by
  constructor
  · intro h0 h1 hd hz
    unfold disruption_delay
    rw [if_neg (by push_neg; exact ⟨h0, h1⟩), if_neg (not_lt.mpr hd), if_pos hz]
  · intro h
    unfold disruption_delay
    rcases h with h | h | h
    · rw [if_pos (Or.inl h)]
    · rw [if_pos (Or.inr h)]
    · by_cases h1 : p < 0 ∨ 1 < p
      · rw [if_pos h1]
      · rw [if_neg h1, if_pos h]

/-- C6, witness: probability 0 with delay 5 yields delay 0 and the untouched
generator. -/
theorem claim_C6_witness :
    disruption_delay constRng 0 5 = Except.ok (0, constRng) :=
  (claim_C6_disruption constRng 0 5).1 (by norm_num) (by norm_num)
    (by norm_num) (Or.inl rfl)

/-- C2 (amended): on every completed run the reported service level is
`1 − stockout_days / days` (which forces `days ≥ 1`); a `days = 0` (or
negative) horizon makes `run_single` fail in the engine — simpy rejects
`run(until=0.0)` — so nothing is reported, and the `config.days > 0` guard in
the KPI expression, had it been reached, would produce 1, not 0. -/
theorem claim_C2_service_level (factory : Option ℤ → NpRng)
    (cfg : SimulationConfig) :
    (∀ res, run_single factory cfg = Except.ok res →
      0 < cfg.days
      ∧ res.kpis.service_level
          = 1 - (res.kpis.stockout_days : ℚ) / (cfg.days : ℚ))
    ∧ (cfg.days ≤ 0 →
        run_single factory cfg = Except.error SimError.untilNotInFuture) := by
  constructor
  · intro res h
    unfold run_single run_single_state at h
    by_cases hd : (cfg.days : ℚ) ≤ 0
    · rw [if_pos hd] at h
      exact absurd h (by simp [Except.map])
    · rw [if_neg hd] at h
      have hdays : 0 < cfg.days := by
        push_neg at hd
        exact_mod_cast hd
      refine ⟨hdays, ?_⟩
      cases hrun : runLoop cfg (simFuel cfg) (initState factory cfg) with
      | error e =>
        rw [hrun] at h
        exact absurd h (by simp [Except.map])
      | ok st =>
        rw [hrun] at h
        simp only [Except.map] at h
        injection h with h
        subst h
        simp [mkResult, if_pos hdays]
  · intro hd
    unfold run_single run_single_state
    rw [if_pos (by exact_mod_cast hd)]
    rfl

/-- The completed concrete run used as a witness below. -/
def c2res : SimulationResult :=
  (run_single cexFactory cexCfg).toOption.getD junkResult

/-- C2, witness: the two-day concrete run reports
`service_level = 1 − stockout_days / 2`. -/
theorem claim_C2_witness :
    0 < cexCfg.days
    ∧ c2res.kpis.service_level
        = 1 - (c2res.kpis.stockout_days : ℚ) / (cexCfg.days : ℚ) :=
  (claim_C2_service_level cexFactory cexCfg).1 c2res
    (by with_unfolding_all decide)

/-- The replication loop returns one KPI record per requested index, each the
KPI record of `run_single` on the seed-offset config, in order. -/
theorem mcRun_spec (factory : Option ℤ → NpRng) (cfg : SimulationConfig) :
    ∀ is ks, mcRun factory cfg is = Except.ok ks →
      ks.length = is.length
      ∧ ∀ n : ℕ, ks[n]? = (is[n]?).bind
          (fun i => (run_single factory (replicationConfig cfg i)).toOption.map
            (fun r => r.kpis)) := by
  intro is
  induction is with
  | nil =>
    intro ks h
    unfold mcRun at h
    injection h with h
    subst h
    exact ⟨rfl, fun n => by simp⟩
  | cons i rest ih =>
    intro ks h
    unfold mcRun at h
    cases hr : run_single factory (replicationConfig cfg i) with
    | error e =>
      rw [hr] at h
      exact absurd h (by simp)
    | ok r =>
      rw [hr] at h
      cases ht : mcRun factory cfg rest with
      | error e =>
        rw [ht] at h
        exact absurd h (by simp)
      | ok tl =>
        rw [ht] at h
        injection h with h
        subst h
        obtain ⟨hlen, hget⟩ := ih tl ht
        refine ⟨by simp [hlen], ?_⟩
        intro n
        cases n with
        | zero => simp [hr, Except.toOption]
        | succ m => simpa using hget m

/-- C8: `monte_carlo` rejects a non-positive replication count with the
`InvalidReplicationCount` failure; on success it returns `replications = R`,
all `R` per-replication KPI records in order — replication `i` run on a
config identical to the base except that its seed is `base_seed + i` when a
base seed is present and `None` otherwise — and reports progress
`(i+1)/R` after each replication, in order. -/
theorem claim_C8_monte_carlo (factory : Option ℤ → NpRng)
    (cfg : SimulationConfig) (R : ℤ) :
    (R ≤ 0 → monte_carlo factory cfg R
        = Except.error SimError.invalidReplicationCount)
    ∧ (∀ mc prog, monte_carlo factory cfg R = Except.ok (mc, prog) →
        mc.summary.replications = R
        ∧ (mc.samples.length : ℤ) = R
        ∧ prog = (List.range R.toNat).map (fun i => ((i : ℚ) + 1) / (R : ℚ))
        ∧ ∀ i : ℕ, i < R.toNat →
            mc.samples[i]? = (run_single factory
                { cfg with seed := match cfg.seed with
                    | some s => some (s + (i : ℤ))
                    | none => none }).toOption.map (fun r => r.kpis)) := by
  constructor
  · intro hR
    unfold monte_carlo
    rw [if_pos hR]
  · intro mc prog h
    unfold monte_carlo at h
    by_cases hR : R ≤ 0
    · rw [if_pos hR] at h
      exact absurd h (by simp)
    · rw [if_neg hR] at h
      cases hs : mcRun factory cfg (List.range R.toNat) with
      | error e =>
        rw [hs] at h
        exact absurd h (by simp)
      | ok samples =>
        rw [hs] at h
        injection h with h
        injection h with h1 h2
        subst h1
        subst h2
        obtain ⟨hlen, hget⟩ := mcRun_spec factory cfg (List.range R.toNat)
          samples hs
        refine ⟨rfl, ?_, rfl, ?_⟩
        · rw [hlen, List.length_range]
          exact Int.toNat_of_nonneg (not_le.mp hR).le
        · intro i hi
          have hcfg : replicationConfig cfg i
              = { cfg with seed := match cfg.seed with
                    | some s => some (s + (i : ℤ))
                    | none => none } := by
            cases hseed : cfg.seed with
            | none => simp [replicationConfig, hseed]
            | some s => simp [replicationConfig, hseed]
          rw [hget i, List.getElem?_range hi]
          simp [hcfg]

/-- C9: in the summary, every KPI field's reported mean is the arithmetic
mean of its `R` samples; for `R = 1` the reported dispersion is exactly 0;
for `R > 1` it is Bessel-corrected — the recorded radicand of
`np.std(·, ddof=1)` is the sum of squared deviations from the field mean
divided by `R − 1`. -/
theorem claim_C9_summary_stats (factory : Option ℤ → NpRng)
    (cfg : SimulationConfig) (R : ℤ) (mc : MonteCarloResult) (prog : List ℚ)
    (h : monte_carlo factory cfg R = Except.ok (mc, prog)) :
    (R = 1 → ∀ f, mc.summary.kpi_var f = 0)
    ∧ (1 < R → ∀ f, mc.summary.kpi_var f
        = ((mc.samples.map
            (fun k => (k.get f - mc.summary.kpi_mean f) ^ 2)).sum)
          / ((R : ℚ) - 1))
    ∧ (∀ f, mc.summary.kpi_mean f
        = ((mc.samples.map (fun k => k.get f)).sum) / (R : ℚ)) := by
  unfold monte_carlo at h
  by_cases hR : R ≤ 0
  · rw [if_pos hR] at h
    exact absurd h (by simp)
  · rw [if_neg hR] at h
    cases hs : mcRun factory cfg (List.range R.toNat) with
    | error e =>
      rw [hs] at h
      exact absurd h (by simp)
    | ok samples =>
      rw [hs] at h
      injection h with h
      injection h with h1 h2
      subst h1
      obtain ⟨hlen, -⟩ := mcRun_spec factory cfg (List.range R.toNat) samples hs
      have hlen2 : ((samples.length : ℕ) : ℚ) = (R : ℚ) := by
        rw [hlen, List.length_range]
        exact_mod_cast Int.toNat_of_nonneg (not_le.mp hR).le
      refine ⟨?_, ?_, ?_⟩
      · intro h1' f
        show kpiVarOf samples R f = 0
        rw [kpiVarOf, if_neg (by rw [h1']; exact lt_irrefl 1)]
      · intro hlt f
        show kpiVarOf samples R f = _
        rw [kpiVarOf, if_pos hlt, hlen2]
      · intro f
        show kpiMeanOf samples f = _
        rw [kpiMeanOf, hlen2]

/-- A one-day variant of the concrete config, for Monte Carlo witnesses. -/
def mcCfg : SimulationConfig := { cexCfg with days := 1 }

/-- Throwaway Monte Carlo result used only as an unreached `getD` default. -/
def junkMC : MonteCarloResult :=
  { config := cexCfg
    summary := { replications := 0, kpi_mean := fun _ => 0,
                 kpi_var := fun _ => 0 }
    samples := [] }

/-- The concrete two-replication Monte Carlo run used as a witness below. -/
def c8pair : MonteCarloResult × List ℚ :=
  (monte_carlo cexFactory mcCfg 2).toOption.getD (junkMC, [])

/-- C8, witness: the concrete two-replication run reports `replications = 2`
and carries both samples. -/
theorem claim_C8_witness :
    c8pair.1.summary.replications = 2 ∧ (c8pair.1.samples.length : ℤ) = 2 :=
  (fun h => ⟨h.1, h.2.1⟩)
    ((claim_C8_monte_carlo cexFactory mcCfg 2).2 c8pair.1 c8pair.2
      (by with_unfolding_all rfl))

/-- The concrete one-replication Monte Carlo run used as a witness below. -/
def c9pair : MonteCarloResult × List ℚ :=
  (monte_carlo cexFactory mcCfg 1).toOption.getD (junkMC, [])

/-- C9, witness: with a single replication the reported dispersion of the
service level is exactly 0. -/
theorem claim_C9_witness :
    c9pair.1.summary.kpi_var KPIField.service_level = 0 :=
  (claim_C9_summary_stats cexFactory mcCfg 1 c9pair.1 c9pair.2
      (by with_unfolding_all rfl)).1 rfl KPIField.service_level

/-- A successful lead-time draw is non-negative. -/
theorem lognormal_days_ok_nonneg {rng rng2 : NpRng} {m s x : ℚ}
    (h : lognormal_days rng m s = Except.ok (x, rng2)) : 0 ≤ x := by
  unfold lognormal_days at h
  split_ifs at h with h1 h2 h3
  · injection h with hp
    injection hp with hx hr
    exact le_of_le_of_eq (not_le.mp h1).le hx
  · unfold NpRng.lognormal at h
    injection h with hp
    injection hp with hx hr
    exact le_of_le_of_eq (rng.lognStream rng.cursor).2 hx

/-- A successful disruption draw is non-negative. -/
theorem disruption_delay_ok_nonneg {rng rng2 : NpRng} {p dl x : ℚ}
    (h : disruption_delay rng p dl = Except.ok (x, rng2)) : 0 ≤ x := by
  unfold disruption_delay at h
  split_ifs at h with h1 h2 h3
  · injection h with hp
    injection hp with hx hr
    exact le_of_le_of_eq le_rfl hx
  · injection h with hp
    injection hp with hx hr
    by_cases hu : (NpRng.random rng).1 < p
    · rw [if_pos hu] at hx
      exact le_of_le_of_eq (not_lt.mp h2) hx
    · rw [if_neg hu] at hx
      exact le_of_le_of_eq le_rfl hx

/-- `insertQ` is a permutation of plain cons. -/
theorem insertQ_perm (e : QEntry) (q : List QEntry) :
    List.Perm (insertQ e q) (e :: q) :=
  List.perm_orderedInsert qle e q

/-- Membership in an `insertQ`. -/
theorem mem_insertQ {x e : QEntry} {q : List QEntry} :
    x ∈ insertQ e q ↔ x = e ∨ x ∈ q :=
  List.mem_orderedInsert qle

/-- Pipeline totals over an `insertQ`. -/
theorem pendingQty_insertQ (loc : Location) (e : QEntry) (q : List QEntry) :
    pendingQty loc (insertQ e q) = arrivalQtyFor loc e + pendingQty loc q := by
  unfold pendingQty
  rw [((insertQ_perm e q).map (arrivalQtyFor loc)).sum_eq]
  simp

/-- `countP` over an `insertQ`. -/
theorem countP_insertQ (p : QEntry → Bool) (e : QEntry) (q : List QEntry) :
    (insertQ e q).countP p = (e :: q).countP p :=
  (insertQ_perm e q).countP_eq p

/-- `insertQ` keeps the queue sorted. -/
theorem sorted_insertQ {q : List QEntry} (e : QEntry)
    (h : List.Sorted qle q) : List.Sorted qle (insertQ e q) :=
  List.Sorted.orderedInsert e q h

/-- The heap order refines the time order. -/
theorem qle_time_le {a b : QEntry} (h : qle a b) : a.time ≤ b.time := by
  rcases h with h | ⟨h, -⟩
  · exact h.le
  · exact h.le

/-- `addOnOrder` only changes the selected inventory's `on_order`. -/
theorem addOnOrder_queue (st : SimState) (loc : Location) (qty : ℤ) :
    (st.addOnOrder loc qty).queue = st.queue := by
  cases loc <;> rfl

theorem addOnOrder_nextEid (st : SimState) (loc : Location) (qty : ℤ) :
    (st.addOnOrder loc qty).nextEid = st.nextEid := by
  cases loc <;> rfl

theorem addOnOrder_timeseries (st : SimState) (loc : Location) (qty : ℤ) :
    (st.addOnOrder loc qty).timeseries = st.timeseries := by
  cases loc <;> rfl

theorem addOnOrder_trace (st : SimState) (loc : Location) (qty : ℤ) :
    (st.addOnOrder loc qty).trace = st.trace := by
  cases loc <;> rfl

theorem addOnOrder_rng (st : SimState) (loc : Location) (qty : ℤ) :
    (st.addOnOrder loc qty).rng = st.rng := by
  cases loc <;> rfl

/-- `Store.consume_demand` never touches `on_order`. -/
theorem consume_demand_on_order (s : Store) (q : ℤ) :
    (s.consume_demand q).inventory.on_order = s.inventory.on_order := rfl

/-- `Store.receive` never touches `on_order`. -/
theorem store_receive_on_order (s : Store) (q : ℤ) :
    (s.receive q).inventory.on_order = s.inventory.on_order := by
  unfold Store.receive
  split_ifs <;> rfl

/-- `DistributionCenter.receive` never touches `on_order`. -/
theorem dc_receive_on_order (dc : DistributionCenter) (q : ℤ) :
    (dc.receive q).inventory.on_order = dc.inventory.on_order := by
  unfold DistributionCenter.receive
  split_ifs <;> rfl

/-- `ship_to_store` never touches the DC's `on_order`. -/
theorem ship_to_store_on_order (dc : DistributionCenter) (q : ℤ) :
    (dc.ship_to_store q).2.inventory.on_order = dc.inventory.on_order := by
  unfold DistributionCenter.ship_to_store
  split_ifs <;> rfl

/-- Pipeline-accounting invariant: each location's `on_order` equals the
total quantity of its scheduled-but-undelivered shipments (the `arrivalInit`
and `arrival` entries still in the queue), every such entry contributes a
non-negative quantity, and every pending arrival process carries a
non-negative total delay. -/
structure OrdInv (st : SimState) : Prop where
  acc_store : st.store.inventory.on_order = pendingQty Location.store st.queue
  acc_dc : st.dc.inventory.on_order = pendingQty Location.dc st.queue
  qty_nonneg : ∀ e ∈ st.queue, ∀ loc, 0 ≤ arrivalQtyFor loc e
  delay_nonneg : ∀ e ∈ st.queue, ∀ dest qty delay sd,
    e.ev = SimEvent.arrivalInit dest qty delay sd → 0 ≤ delay

/-- One engine step: pop the head of the (sorted) queue, provided it is due
before the horizon, and execute it. -/
def engineStep (cfg : SimulationConfig) (st st2 : SimState) : Prop :=
  ∃ e rest, st.queue = e :: rest ∧ e.time < (cfg.days : ℚ)
    ∧ execEvent cfg e { st with queue := rest } = Except.ok st2

/-- Reachability along engine steps. -/
def Reachable (cfg : SimulationConfig) (s0 st : SimState) : Prop :=
  Relation.ReflTransGen (engineStep cfg) s0 st

/-- A succeeding `schedule_inbound_shipment` for a positive quantity adds the
quantity to the destination's pipeline and queues one `arrivalInit` entry at
the current time with a non-negative delay; nothing else changes except the
generator and the event-id counter. -/
theorem schedule_inbound_effect (cfg : SimulationConfig) (now : ℚ) (sd : ℤ)
    (loc : Location) (qty : ℤ) (st st2 : SimState) (hq : 0 < qty)
    (h : schedule_inbound_shipment cfg now sd loc qty st = Except.ok st2) :
    ∃ delay rng2, 0 ≤ delay ∧
      st2 = { st.addOnOrder loc qty with
        rng := rng2
        queue := insertQ
          ⟨now, 0, st.nextEid, SimEvent.arrivalInit loc qty delay sd⟩ st.queue
        nextEid := st.nextEid + 1 } := by
  unfold schedule_inbound_shipment at h
  rw [if_neg (not_le.mpr hq)] at h
  dsimp only [] at h
  cases hl : lognormal_days (st.addOnOrder loc qty).rng cfg.lead_time_mean_days
      cfg.lead_time_std_days with
  | error e =>
    rw [hl] at h
    exact absurd h (by simp)
  | ok ltp =>
    rw [hl] at h
    dsimp only [] at h
    cases hd : disruption_delay ltp.2 cfg.disruption_probability_per_shipment
        cfg.disruption_delay_days with
    | error e =>
      rw [hd] at h
      exact absurd h (by simp)
    | ok ddp =>
      rw [hd] at h
      dsimp only [] at h
      injection h with h
      refine ⟨ltp.1 + ddp.1, ddp.2, ?_, ?_⟩
      · have hl2 : lognormal_days (st.addOnOrder loc qty).rng
            cfg.lead_time_mean_days cfg.lead_time_std_days
            = Except.ok (ltp.1, ltp.2) := by rw [hl]
        have hd2 : disruption_delay ltp.2
            cfg.disruption_probability_per_shipment cfg.disruption_delay_days
            = Except.ok (ddp.1, ddp.2) := by rw [hd]
        exact add_nonneg (lognormal_days_ok_nonneg hl2)
          (disruption_delay_ok_nonneg hd2)
      · rw [← h]
        rw [addOnOrder_queue, addOnOrder_nextEid]

/-- `schedule_inbound_shipment` preserves the pipeline-accounting invariant. -/
theorem ordInv_sched {cfg : SimulationConfig} {now : ℚ} {sd : ℤ}
    {loc : Location} {qty : ℤ} {st st2 : SimState}
    (hI : OrdInv st)
    (h : schedule_inbound_shipment cfg now sd loc qty st = Except.ok st2) :
    OrdInv st2 := by
  by_cases hq : qty ≤ 0
  · unfold schedule_inbound_shipment at h
    rw [if_pos hq] at h
    injection h with h
    subst h
    exact hI
  · obtain ⟨delay, rng2, hdel, hst⟩ :=
      schedule_inbound_effect cfg now sd loc qty st st2 (not_le.mp hq) h
    subst hst
    have hq2 : (0 : ℤ) ≤ qty := (not_le.mp hq).le
    refine ⟨?_, ?_, ?_, ?_⟩
    · cases loc with
      | store =>
        show st.store.inventory.on_order + qty = pendingQty Location.store _
        rw [pendingQty_insertQ, hI.acc_store]
        simp [arrivalQtyFor]
        ring
      | dc =>
        show st.store.inventory.on_order = pendingQty Location.store _
        rw [pendingQty_insertQ, hI.acc_store]
        simp [arrivalQtyFor]
    · cases loc with
      | store =>
        show st.dc.inventory.on_order = pendingQty Location.dc _
        rw [pendingQty_insertQ, hI.acc_dc]
        simp [arrivalQtyFor]
      | dc =>
        show st.dc.inventory.on_order + qty = pendingQty Location.dc _
        rw [pendingQty_insertQ, hI.acc_dc]
        simp [arrivalQtyFor]
        ring
    · intro e he loc2
      rcases mem_insertQ.mp he with he1 | he2
      · subst he1
        cases loc <;> cases loc2 <;> simp [arrivalQtyFor] <;> exact hq2
      · exact hI.qty_nonneg e he2 loc2
    · intro e he dest2 qty2 delay2 sd2 hev
      rcases mem_insertQ.mp he with he1 | he2
      · subst he1
        injection hev with h1 h2 h3 h4
        exact h3 ▸ hdel
      · exact hI.delay_nonneg e he2 dest2 qty2 delay2 sd2 hev

/-- `pendingQty` over a cons. -/
theorem pendingQty_cons (loc : Location) (e : QEntry) (q : List QEntry) :
    pendingQty loc (e :: q) = arrivalQtyFor loc e + pendingQty loc q := by
  simp [pendingQty]

/-- Step 1–2 of the day body preserves pipeline accounting. -/
theorem ordInv_doDemand {cfg : SimulationConfig} {d : ℤ} {st st2 : SimState}
    (hI : OrdInv st) (h : doDemand cfg d st = Except.ok st2) : OrdInv st2 := by
  unfold doDemand at h
  cases hp : poisson_demand st.rng
      (cfg.demand_lambda_per_day * demand_multiplier_for_day cfg d) with
  | error e =>
    rw [hp] at h
    exact absurd h (by simp)
  | ok qp =>
    rw [hp] at h
    dsimp only [] at h
    injection h with h
    subst h
    refine ⟨?_, hI.acc_dc, hI.qty_nonneg, hI.delay_nonneg⟩
    show (st.store.consume_demand qp.1).inventory.on_order = _
    rw [consume_demand_on_order]
    exact hI.acc_store

/-- Adding store backorder never touches pipeline accounting. -/
theorem ordInv_set_backorder {st : SimState} (hI : OrdInv st) (b : ℤ) :
    OrdInv { st with store := { st.store with
      inventory := { st.store.inventory with backorder := b } } } :=
  ⟨hI.acc_store, hI.acc_dc, hI.qty_nonneg, hI.delay_nonneg⟩

/-- Step 3 of the day body preserves pipeline accounting. -/
theorem ordInv_doBackorder {cfg : SimulationConfig} {d : ℤ} {st st2 : SimState}
    (hI : OrdInv st) (h : doBackorderClearing cfg d st = Except.ok st2) :
    OrdInv st2 := by
  unfold doBackorderClearing at h
  split_ifs at h with h1
  · dsimp only [] at h
    have hmid : OrdInv { st with
        dc := (st.dc.ship_to_store st.store.inventory.backorder).2 } := by
      refine ⟨hI.acc_store, ?_, hI.qty_nonneg, hI.delay_nonneg⟩
      show (st.dc.ship_to_store st.store.inventory.backorder).2.inventory.on_order = _
      rw [ship_to_store_on_order]
      exact hI.acc_dc
    by_cases h2 : (st.dc.ship_to_store st.store.inventory.backorder).1 > 0
    · rw [if_pos h2] at h
      exact ordInv_sched hmid h
    · rw [if_neg h2] at h
      injection h with h
      subst h
      exact hmid
  · injection h with h
    subst h
    exact hI

/-- Step 4 of the day body preserves pipeline accounting. -/
theorem ordInv_doStoreOrder {cfg : SimulationConfig} {d : ℤ} {st st2 : SimState}
    (hI : OrdInv st) (h : doStoreOrder cfg d st = Except.ok st2) :
    OrdInv st2 := by
  unfold doStoreOrder at h
  cases ho : order_up_to_sS st.store.inventory.inventory_position
      cfg.s_store cfg.S_store with
  | error e =>
    rw [ho] at h
    exact absurd h (by simp)
  | ok oq =>
    rw [ho] at h
    dsimp only [] at h
    by_cases h1 : oq > 0
    · rw [if_pos h1] at h
      have hmid : OrdInv { st with
          store := { st.store with orders_placed := st.store.orders_placed + 1 } } :=
        ⟨hI.acc_store, hI.acc_dc, hI.qty_nonneg, hI.delay_nonneg⟩
      set stA : SimState := { st with
        store := { st.store with orders_placed := st.store.orders_placed + 1 } }
        with hstA
      have hmid2 : OrdInv { stA with dc := (stA.dc.ship_to_store oq).2 } := by
        refine ⟨hmid.acc_store, ?_, hmid.qty_nonneg, hmid.delay_nonneg⟩
        show (stA.dc.ship_to_store oq).2.inventory.on_order = _
        rw [ship_to_store_on_order]
        exact hmid.acc_dc
      by_cases h2 : (stA.dc.ship_to_store oq).1 > 0
      · rw [if_pos h2] at h
        cases hs : schedule_inbound_shipment cfg (d : ℚ) d Location.store
            (stA.dc.ship_to_store oq).1
            { stA with dc := (stA.dc.ship_to_store oq).2 } with
        | error e =>
          rw [hs] at h
          exact absurd h (by simp)
        | ok st3 =>
          rw [hs] at h
          dsimp only [] at h
          injection h with h
          subst h
          have h3 := ordInv_sched hmid2 hs
          split_ifs with h4
          · exact @ordInv_set_backorder st3 h3 _
          · exact h3
      · rw [if_neg h2] at h
        injection h with h
        subst h
        split_ifs with h4
        · exact @ordInv_set_backorder _ hmid2 _
        · exact hmid2
    · rw [if_neg h1] at h
      injection h with h
      subst h
      exact hI

/-- Step 5 of the day body preserves pipeline accounting. -/
theorem ordInv_doDcOrder {cfg : SimulationConfig} {d : ℤ} {st st2 : SimState}
    (hI : OrdInv st) (h : doDcOrder cfg d st = Except.ok st2) : OrdInv st2 := by
  unfold doDcOrder at h
  cases ho : order_up_to_sS st.dc.inventory.inventory_position
      cfg.s_dc cfg.S_dc with
  | error e =>
    rw [ho] at h
    exact absurd h (by simp)
  | ok oq =>
    rw [ho] at h
    dsimp only [] at h
    split_ifs at h with h1
    · have hmid : OrdInv { st with
          dc := { st.dc with orders_placed := st.dc.orders_placed + 1 } } :=
        ⟨hI.acc_store, hI.acc_dc, hI.qty_nonneg, hI.delay_nonneg⟩
      exact ordInv_sched hmid h
    · injection h with h
      subst h
      exact hI

/-- Steps 7–8 of the day body preserve pipeline accounting. -/
theorem ordInv_record_advance {st : SimState} (hI : OrdInv st) (d : ℤ) :
    OrdInv (doAdvance d (doRecord d st)) := by
  unfold doAdvance doRecord
  dsimp only []
  refine ⟨?_, ?_, ?_, ?_⟩
  · show st.store.inventory.on_order = pendingQty Location.store _
    rw [pendingQty_insertQ, hI.acc_store]
    simp [arrivalQtyFor]
  · show st.dc.inventory.on_order = pendingQty Location.dc _
    rw [pendingQty_insertQ, hI.acc_dc]
    simp [arrivalQtyFor]
  · intro e he loc2
    rcases mem_insertQ.mp he with he1 | he2
    · subst he1
      simp [arrivalQtyFor]
    · exact hI.qty_nonneg e he2 loc2
  · intro e he dest2 qty2 delay2 sd2 hev
    rcases mem_insertQ.mp he with he1 | he2
    · subst he1
      exact absurd hev (by simp)
    · exact hI.delay_nonneg e he2 dest2 qty2 delay2 sd2 hev

/-- The whole day body preserves pipeline accounting. -/
theorem ordInv_runDayBody {cfg : SimulationConfig} {d : ℤ} {st st2 : SimState}
    (hI : OrdInv st) (h : runDayBody cfg d st = Except.ok st2) : OrdInv st2 := by
  unfold runDayBody at h
  cases h1 : doDemand cfg d st with
  | error e =>
    rw [h1] at h
    exact absurd h (by simp)
  | ok stA =>
    rw [h1] at h
    dsimp only [] at h
    cases h2 : doBackorderClearing cfg d stA with
    | error e =>
      rw [h2] at h
      exact absurd h (by simp)
    | ok stB =>
      rw [h2] at h
      dsimp only [] at h
      cases h3 : doStoreOrder cfg d stB with
      | error e =>
        rw [h3] at h
        exact absurd h (by simp)
      | ok stC =>
        rw [h3] at h
        dsimp only [] at h
        cases h4 : doDcOrder cfg d stC with
        | error e =>
          rw [h4] at h
          exact absurd h (by simp)
        | ok stD =>
          rw [h4] at h
          dsimp only [] at h
          injection h with h
          subst h
          exact ordInv_record_advance
            (ordInv_doDcOrder
              (ordInv_doStoreOrder (ordInv_doBackorder (ordInv_doDemand hI h1) h2) h3) h4) d

/-- Executing any popped event preserves pipeline accounting. -/
theorem ordInv_execEvent {cfg : SimulationConfig} {e : QEntry}
    {rest : List QEntry} {st st2 : SimState}
    (hI : OrdInv st) (hq : st.queue = e :: rest)
    (h : execEvent cfg e { st with queue := rest } = Except.ok st2) :
    OrdInv st2 := by
  have hmem : e ∈ st.queue := by
    rw [hq]
    exact List.mem_cons_self e rest
  obtain ⟨tm, pr, eid, ev⟩ := e
  cases ev with
  | daily d =>
    have hpop : OrdInv { st with queue := rest } := by
      refine ⟨?_, ?_, ?_, ?_⟩
      · show st.store.inventory.on_order = pendingQty Location.store rest
        have hacc := hI.acc_store
        rw [hq, pendingQty_cons] at hacc
        simpa [arrivalQtyFor] using hacc
      · show st.dc.inventory.on_order = pendingQty Location.dc rest
        have hacc := hI.acc_dc
        rw [hq, pendingQty_cons] at hacc
        simpa [arrivalQtyFor] using hacc
      · intro x hx loc
        exact hI.qty_nonneg x (by rw [hq]; exact List.mem_cons_of_mem _ hx) loc
      · intro x hx dest qty delay sd hev
        exact hI.delay_nonneg x (by rw [hq]; exact List.mem_cons_of_mem _ hx)
          dest qty delay sd hev
    unfold execEvent at h
    dsimp only [] at h
    split_ifs at h with hd
    · exact ordInv_runDayBody hpop h
    · injection h with h
      subst h
      exact hpop
  | arrivalInit dest qty delay sd =>
    unfold execEvent at h
    dsimp only [] at h
    injection h with h
    subst h
    refine ⟨?_, ?_, ?_, ?_⟩
    · show st.store.inventory.on_order = pendingQty Location.store _
      rw [pendingQty_insertQ]
      have hacc := hI.acc_store
      rw [hq, pendingQty_cons] at hacc
      simpa [arrivalQtyFor] using hacc
    · show st.dc.inventory.on_order = pendingQty Location.dc _
      rw [pendingQty_insertQ]
      have hacc := hI.acc_dc
      rw [hq, pendingQty_cons] at hacc
      simpa [arrivalQtyFor] using hacc
    · intro x hx loc
      rcases mem_insertQ.mp hx with h1 | h2
      · subst h1
        have hnn := hI.qty_nonneg
          ⟨tm, pr, eid, SimEvent.arrivalInit dest qty delay sd⟩ hmem loc
        simpa [arrivalQtyFor] using hnn
      · exact hI.qty_nonneg x (by rw [hq]; exact List.mem_cons_of_mem _ h2) loc
    · intro x hx dest2 qty2 delay2 sd2 hev
      rcases mem_insertQ.mp hx with h1 | h2
      · subst h1
        exact absurd hev (by simp)
      · exact hI.delay_nonneg x (by rw [hq]; exact List.mem_cons_of_mem _ h2)
          dest2 qty2 delay2 sd2 hev
  | arrival dest qty sd =>
    unfold execEvent at h
    dsimp only [] at h
    injection h with h
    subst h
    have hqn : ∀ x ∈ rest, ∀ loc, 0 ≤ arrivalQtyFor loc x := fun x hx loc =>
      hI.qty_nonneg x (by rw [hq]; exact List.mem_cons_of_mem _ hx) loc
    have hdn : ∀ x ∈ rest, ∀ d2 q2 dl2 s2,
        x.ev = SimEvent.arrivalInit d2 q2 dl2 s2 → 0 ≤ dl2 :=
      fun x hx d2 q2 dl2 s2 hev =>
        hI.delay_nonneg x (by rw [hq]; exact List.mem_cons_of_mem _ hx)
          d2 q2 dl2 s2 hev
    cases dest with
    | store =>
      have hacc := hI.acc_store
      rw [hq, pendingQty_cons] at hacc
      simp [arrivalQtyFor] at hacc
      have hacc2 := hI.acc_dc
      rw [hq, pendingQty_cons] at hacc2
      simp [arrivalQtyFor] at hacc2
      refine ⟨?_, ?_, hqn, hdn⟩
      · simp only [SimState.receiveAt, SimState.addOnOrder]
        rw [store_receive_on_order]
        dsimp only []
        omega
      · simp only [SimState.receiveAt, SimState.addOnOrder]
        simpa using hacc2
    | dc =>
      have hacc := hI.acc_dc
      rw [hq, pendingQty_cons] at hacc
      simp [arrivalQtyFor] at hacc
      have hacc2 := hI.acc_store
      rw [hq, pendingQty_cons] at hacc2
      simp [arrivalQtyFor] at hacc2
      refine ⟨?_, ?_, hqn, hdn⟩
      · simp only [SimState.receiveAt, SimState.addOnOrder]
        simpa using hacc2
      · simp only [SimState.receiveAt, SimState.addOnOrder]
        rw [dc_receive_on_order]
        dsimp only []
        omega

/-- One engine step preserves pipeline accounting. -/
theorem ordInv_engineStep {cfg : SimulationConfig} {st st2 : SimState}
    (hI : OrdInv st) (h : engineStep cfg st st2) : OrdInv st2 := by
  obtain ⟨e, rest, hq, ht, hex⟩ := h
  exact ordInv_execEvent hI hq hex

/-- Pipeline accounting holds at every reachable state. -/
theorem ordInv_reachable {cfg : SimulationConfig} {s0 st : SimState}
    (h0 : OrdInv s0) (h : Reachable cfg s0 st) : OrdInv st := by
  induction h with
  | refl => exact h0
  | tail hab hbc ih => exact ordInv_engineStep ih hbc

/-- Pipeline accounting holds initially. -/
theorem ordInv_initState (factory : Option ℤ → NpRng)
    (cfg : SimulationConfig) : OrdInv (initState factory cfg) := by
  refine ⟨?_, ?_, ?_, ?_⟩
  · show (0 : ℤ) = pendingQty Location.store _
    simp [initState, pendingQty, arrivalQtyFor]
  · show (0 : ℤ) = pendingQty Location.dc _
    simp [initState, pendingQty, arrivalQtyFor]
  · intro e he loc
    simp only [initState, List.mem_singleton] at he
    subst he
    simp [arrivalQtyFor]
  · intro e he dest qty delay sd hev
    simp only [initState, List.mem_singleton] at he
    subst he
    exact absurd hev (by simp)

/-- The pipeline total of any accounted queue is non-negative. -/
theorem pendingQty_nonneg {st : SimState} (hI : OrdInv st) (loc : Location) :
    0 ≤ pendingQty loc st.queue := by
  unfold pendingQty
  apply List.sum_nonneg
  intro x hx
  obtain ⟨e, he, hfe⟩ := List.mem_map.mp hx
  exact hfe ▸ hI.qty_nonneg e he loc

/-- C10: scheduling a non-positive quantity is a complete no-op (the state —
actors, queue, generator cursor, counters — is returned unchanged, so no
random draw is consumed and no event is created); and throughout any run —
at every state reachable from the initial state by engine steps — each
location's `on_order` equals the summed quantity of the shipments scheduled
for it but not yet delivered (the quantity is added at scheduling time and
subtracted exactly once, by the arrival event, immediately before `receive`),
whence `on_order ≥ 0` always. -/
theorem claim_C10_on_order :
    (∀ (cfg : SimulationConfig) (now : ℚ) (sd : ℤ) (loc : Location)
        (qty : ℤ) (st : SimState), qty ≤ 0 →
        schedule_inbound_shipment cfg now sd loc qty st = Except.ok st)
    ∧ (∀ (factory : Option ℤ → NpRng) (cfg : SimulationConfig) (st : SimState),
        Reachable cfg (initState factory cfg) st →
          st.store.inventory.on_order = pendingQty Location.store st.queue
          ∧ st.dc.inventory.on_order = pendingQty Location.dc st.queue
          ∧ 0 ≤ st.store.inventory.on_order
          ∧ 0 ≤ st.dc.inventory.on_order) := by
  constructor
  · intro cfg now sd loc qty st hq
    unfold schedule_inbound_shipment
    rw [if_pos hq]
  · intro factory cfg st h
    have hI := ordInv_reachable (ordInv_initState factory cfg) h
    refine ⟨hI.acc_store, hI.acc_dc, ?_, ?_⟩
    · rw [hI.acc_store]
      exact pendingQty_nonneg hI Location.store
    · rw [hI.acc_dc]
      exact pendingQty_nonneg hI Location.dc

/-- The state after executing the initial daily event of the concrete
two-day run: day 0's body has scheduled two store shipments. -/
def c10wit : SimState :=
  match execEvent cexCfg (⟨0, 0, 0, SimEvent.daily 0⟩ : QEntry)
      { initState cexFactory cexCfg with queue := [] } with
  | Except.ok s => s
  | Except.error _ => initState cexFactory cexCfg

/-- C10, witness: the no-op holds at quantity 0, and after one concrete
engine step the pipeline accounting holds with non-negative `on_order`. -/
theorem claim_C10_witness :
    schedule_inbound_shipment cexCfg 0 0 Location.store 0
        (initState cexFactory cexCfg)
      = Except.ok (initState cexFactory cexCfg)
    ∧ (c10wit.store.inventory.on_order = pendingQty Location.store c10wit.queue
       ∧ c10wit.dc.inventory.on_order = pendingQty Location.dc c10wit.queue
       ∧ 0 ≤ c10wit.store.inventory.on_order
       ∧ 0 ≤ c10wit.dc.inventory.on_order) :=
  ⟨claim_C10_on_order.1 cexCfg 0 0 Location.store 0
      (initState cexFactory cexCfg) le_rfl,
   claim_C10_on_order.2 cexFactory cexCfg c10wit
     (Relation.ReflTransGen.single
       ⟨(⟨0, 0, 0, SimEvent.daily 0⟩ : QEntry), [], rfl,
        by with_unfolding_all decide, by with_unfolding_all rfl⟩)⟩

/-- `receiveAt` and `addOnOrder` never touch the queue or the trace. -/
theorem receiveAt_queue (st : SimState) (loc : Location) (qty : ℤ) :
    (st.receiveAt loc qty).queue = st.queue := by
  cases loc <;> rfl

theorem receiveAt_trace (st : SimState) (loc : Location) (qty : ℤ) :
    (st.receiveAt loc qty).trace = st.trace := by
  cases loc <;> rfl

/-- Appending an upper bound to a weakly sorted list keeps it sorted. -/
theorem sorted_append_one {l : List ℚ} {x : ℚ}
    (h : List.Sorted (fun a b => a ≤ b) l) (hx : ∀ t ∈ l, t ≤ x) :
    List.Sorted (fun a b => a ≤ b) (l ++ [x]) := by
  unfold List.Sorted at h ⊢
  rw [List.pairwise_append]
  exact ⟨h, List.pairwise_singleton _ _, fun a ha b hb => by
    rw [List.mem_singleton] at hb
    exact hb ▸ hx a ha⟩

/-- Event-ordering invariant: the queue is heap-sorted, daily entries sit at
their day's boundary time, pending arrival processes carry non-negative
delays, the trace is weakly sorted by event time, and every traced time is at
or before every still-queued event. -/
structure TraceInv (st : SimState) : Prop where
  sortedQ : List.Sorted qle st.queue
  daily_time : ∀ e ∈ st.queue, ∀ d, e.ev = SimEvent.daily d → e.time = (d : ℚ)
  delay_nonneg : ∀ e ∈ st.queue, ∀ dest qty delay sd,
    e.ev = SimEvent.arrivalInit dest qty delay sd → 0 ≤ delay
  tr_sorted : List.Sorted (fun a b => a ≤ b) (st.trace.map traceTime)
  tr_le_q : ∀ t ∈ st.trace.map traceTime, ∀ e ∈ st.queue, t ≤ e.time

/-- The event-ordering invariant in the middle of a day body running at time
`now`: no daily entry needs tracking, queued events are due at or after
`now`, and all traced times are at or before `now`. -/
structure MidTrace (now : ℚ) (st : SimState) : Prop where
  sortedQ : List.Sorted qle st.queue
  daily_time : ∀ e ∈ st.queue, ∀ d, e.ev = SimEvent.daily d → e.time = (d : ℚ)
  delay_nonneg : ∀ e ∈ st.queue, ∀ dest qty delay sd,
    e.ev = SimEvent.arrivalInit dest qty delay sd → 0 ≤ delay
  q_ge : ∀ e ∈ st.queue, now ≤ e.time
  tr_sorted : List.Sorted (fun a b => a ≤ b) (st.trace.map traceTime)
  tr_le : ∀ t ∈ st.trace.map traceTime, t ≤ now

/-- Mid-body invariance under updates that touch neither queue nor trace. -/
theorem midTrace_congr {now : ℚ} {st st2 : SimState} (hI : MidTrace now st)
    (hq : st2.queue = st.queue) (ht : st2.trace = st.trace) :
    MidTrace now st2 := by
  refine ⟨?_, ?_, ?_, ?_, ?_, ?_⟩
  · rw [hq]
    exact hI.sortedQ
  · rw [hq]
    exact hI.daily_time
  · rw [hq]
    exact hI.delay_nonneg
  · rw [hq]
    exact hI.q_ge
  · rw [ht]
    exact hI.tr_sorted
  · rw [ht]
    exact hI.tr_le

/-- Scheduling a shipment mid-body preserves the ordering invariant. -/
theorem midTrace_sched {cfg : SimulationConfig} {d : ℤ} {loc : Location}
    {qty : ℤ} {st st2 : SimState} (hI : MidTrace (d : ℚ) st)
    (h : schedule_inbound_shipment cfg (d : ℚ) d loc qty st = Except.ok st2) :
    MidTrace (d : ℚ) st2 := by
  by_cases hq : qty ≤ 0
  · unfold schedule_inbound_shipment at h
    rw [if_pos hq] at h
    injection h with h
    subst h
    exact hI
  · obtain ⟨delay, rng2, hdel, hst⟩ :=
      schedule_inbound_effect cfg (d : ℚ) d loc qty st st2 (not_le.mp hq) h
    subst hst
    refine ⟨?_, ?_, ?_, ?_, ?_, ?_⟩
    · exact sorted_insertQ _ hI.sortedQ
    · intro e he d2 hev
      rcases mem_insertQ.mp he with h1 | h2
      · subst h1
        exact absurd hev (by simp)
      · exact hI.daily_time e h2 d2 hev
    · intro e he dest2 qty2 delay2 sd2 hev
      rcases mem_insertQ.mp he with h1 | h2
      · subst h1
        injection hev with e1 e2 e3 e4
        exact e3 ▸ hdel
      · exact hI.delay_nonneg e h2 dest2 qty2 delay2 sd2 hev
    · intro e he
      rcases mem_insertQ.mp he with h1 | h2
      · subst h1
        exact le_rfl
      · exact hI.q_ge e h2
    · dsimp only []
      rw [addOnOrder_trace]
      exact hI.tr_sorted
    · dsimp only []
      rw [addOnOrder_trace]
      exact hI.tr_le

/-- Step 1–2 of the day body preserves the mid-body ordering invariant: the
demand draw is traced at the day's boundary time. -/
theorem midTrace_doDemand {cfg : SimulationConfig} {d : ℤ} {st st2 : SimState}
    (hI : MidTrace (d : ℚ) st) (h : doDemand cfg d st = Except.ok st2) :
    MidTrace (d : ℚ) st2 := by
  unfold doDemand at h
  cases hp : poisson_demand st.rng
      (cfg.demand_lambda_per_day * demand_multiplier_for_day cfg d) with
  | error e =>
    rw [hp] at h
    exact absurd h (by simp)
  | ok qp =>
    rw [hp] at h
    dsimp only [] at h
    injection h with h
    subst h
    refine ⟨hI.sortedQ, hI.daily_time, hI.delay_nonneg, hI.q_ge, ?_, ?_⟩
    · show List.Sorted _ ((st.trace ++ [TraceEvent.demandDrawn d qp.1]).map traceTime)
      rw [List.map_append]
      exact sorted_append_one hI.tr_sorted hI.tr_le
    · intro t ht
      rw [List.map_append] at ht
      rcases List.mem_append.mp ht with h1 | h2
      · exact hI.tr_le t h1
      · simp only [List.map_cons, List.map_nil, List.mem_singleton] at h2
        exact le_of_eq h2

/-- Step 3 of the day body preserves the mid-body ordering invariant. -/
theorem midTrace_doBackorder {cfg : SimulationConfig} {d : ℤ}
    {st st2 : SimState} (hI : MidTrace (d : ℚ) st)
    (h : doBackorderClearing cfg d st = Except.ok st2) :
    MidTrace (d : ℚ) st2 := by
  unfold doBackorderClearing at h
  split_ifs at h with h1
  · dsimp only [] at h
    have hmid : MidTrace (d : ℚ) { st with
        dc := (st.dc.ship_to_store st.store.inventory.backorder).2 } :=
      midTrace_congr hI rfl rfl
    by_cases h2 : (st.dc.ship_to_store st.store.inventory.backorder).1 > 0
    · rw [if_pos h2] at h
      exact midTrace_sched hmid h
    · rw [if_neg h2] at h
      injection h with h
      subst h
      exact hmid
  · injection h with h
    subst h
    exact hI

/-- Step 4 of the day body preserves the mid-body ordering invariant. -/
theorem midTrace_doStoreOrder {cfg : SimulationConfig} {d : ℤ}
    {st st2 : SimState} (hI : MidTrace (d : ℚ) st)
    (h : doStoreOrder cfg d st = Except.ok st2) : MidTrace (d : ℚ) st2 := by
  unfold doStoreOrder at h
  cases ho : order_up_to_sS st.store.inventory.inventory_position
      cfg.s_store cfg.S_store with
  | error e =>
    rw [ho] at h
    exact absurd h (by simp)
  | ok oq =>
    rw [ho] at h
    dsimp only [] at h
    by_cases h1 : oq > 0
    · rw [if_pos h1] at h
      set stA : SimState := { st with
        store := { st.store with orders_placed := st.store.orders_placed + 1 } }
        with hstA
      have hmid2 : MidTrace (d : ℚ) { stA with dc := (stA.dc.ship_to_store oq).2 } :=
        midTrace_congr hI rfl rfl
      by_cases h2 : (stA.dc.ship_to_store oq).1 > 0
      · rw [if_pos h2] at h
        cases hs : schedule_inbound_shipment cfg (d : ℚ) d Location.store
            (stA.dc.ship_to_store oq).1
            { stA with dc := (stA.dc.ship_to_store oq).2 } with
        | error e =>
          rw [hs] at h
          exact absurd h (by simp)
        | ok st3 =>
          rw [hs] at h
          dsimp only [] at h
          injection h with h
          subst h
          have h3 := midTrace_sched hmid2 hs
          split_ifs with h4
          · exact midTrace_congr h3 rfl rfl
          · exact h3
      · rw [if_neg h2] at h
        injection h with h
        subst h
        split_ifs with h4
        · exact midTrace_congr hmid2 rfl rfl
        · exact hmid2
    · rw [if_neg h1] at h
      injection h with h
      subst h
      exact hI

/-- Step 5 of the day body preserves the mid-body ordering invariant. -/
theorem midTrace_doDcOrder {cfg : SimulationConfig} {d : ℤ} {st st2 : SimState}
    (hI : MidTrace (d : ℚ) st) (h : doDcOrder cfg d st = Except.ok st2) :
    MidTrace (d : ℚ) st2 := by
  unfold doDcOrder at h
  cases ho : order_up_to_sS st.dc.inventory.inventory_position
      cfg.s_dc cfg.S_dc with
  | error e =>
    rw [ho] at h
    exact absurd h (by simp)
  | ok oq =>
    rw [ho] at h
    dsimp only [] at h
    split_ifs at h with h1
    · have hmid : MidTrace (d : ℚ) { st with
          dc := { st.dc with orders_placed := st.dc.orders_placed + 1 } } :=
        midTrace_congr hI rfl rfl
      exact midTrace_sched hmid h
    · injection h with h
      subst h
      exact hI

/-- Closing the day restores the ordering invariant: the recorded row touches
nothing relevant and the next daily resumption is queued at `d + 1`. -/
theorem traceInv_record_advance {d : ℤ} {st : SimState}
    (hI : MidTrace (d : ℚ) st) : TraceInv (doAdvance d (doRecord d st)) := by
  unfold doAdvance doRecord
  dsimp only []
  refine ⟨sorted_insertQ _ hI.sortedQ, ?_, ?_, hI.tr_sorted, ?_⟩
  · intro e he d2 hev
    rcases mem_insertQ.mp he with h1 | h2
    · subst h1
      injection hev with hd2
      subst hd2
      rfl
    · exact hI.daily_time e h2 d2 hev
  · intro e he dest qty delay sd hev
    rcases mem_insertQ.mp he with h1 | h2
    · subst h1
      exact absurd hev (by simp)
    · exact hI.delay_nonneg e h2 dest qty delay sd hev
  · intro t ht e he
    rcases mem_insertQ.mp he with h1 | h2
    · subst h1
      refine le_trans (hI.tr_le t ht) ?_
      push_cast
      linarith
    · exact le_trans (hI.tr_le t ht) (hI.q_ge e h2)

/-- The whole day body carries the ordering invariant from the popped daily
event to the next day's queued state. -/
theorem traceInv_runDayBody {cfg : SimulationConfig} {d : ℤ} {st st2 : SimState}
    (hI : MidTrace (d : ℚ) st) (h : runDayBody cfg d st = Except.ok st2) :
    TraceInv st2 := by
  unfold runDayBody at h
  cases h1 : doDemand cfg d st with
  | error e =>
    rw [h1] at h
    exact absurd h (by simp)
  | ok stA =>
    rw [h1] at h
    dsimp only [] at h
    cases h2 : doBackorderClearing cfg d stA with
    | error e =>
      rw [h2] at h
      exact absurd h (by simp)
    | ok stB =>
      rw [h2] at h
      dsimp only [] at h
      cases h3 : doStoreOrder cfg d stB with
      | error e =>
        rw [h3] at h
        exact absurd h (by simp)
      | ok stC =>
        rw [h3] at h
        dsimp only [] at h
        cases h4 : doDcOrder cfg d stC with
        | error e =>
          rw [h4] at h
          exact absurd h (by simp)
        | ok stD =>
          rw [h4] at h
          dsimp only [] at h
          injection h with h
          subst h
          exact traceInv_record_advance
            (midTrace_doDcOrder
              (midTrace_doStoreOrder
                (midTrace_doBackorder (midTrace_doDemand hI h1) h2) h3) h4)

/-- Popping the daily resumption puts the state in the mid-body form at the
day's boundary time. -/
theorem midTrace_pop_daily {st : SimState} {e : QEntry} {rest : List QEntry}
    {d : ℤ} (hI : TraceInv st) (hq : st.queue = e :: rest)
    (hev : e.ev = SimEvent.daily d) :
    MidTrace (d : ℚ) { st with queue := rest } := by
  have hsorted := hI.sortedQ
  rw [hq, List.sorted_cons] at hsorted
  have htime : e.time = (d : ℚ) :=
    hI.daily_time e (by rw [hq]; exact List.mem_cons_self e rest) d hev
  refine ⟨hsorted.2, ?_, ?_, ?_, hI.tr_sorted, ?_⟩
  · intro x hx d2 hev2
    exact hI.daily_time x (by rw [hq]; exact List.mem_cons_of_mem _ hx) d2 hev2
  · intro x hx dest qty delay sd hev2
    exact hI.delay_nonneg x (by rw [hq]; exact List.mem_cons_of_mem _ hx)
      dest qty delay sd hev2
  · intro x hx
    exact htime ▸ qle_time_le (hsorted.1 x hx)
  · intro t ht
    exact htime ▸ hI.tr_le_q t ht e (by rw [hq]; exact List.mem_cons_self e rest)

/-- Executing any popped event preserves the ordering invariant. -/
theorem traceInv_execEvent {cfg : SimulationConfig} {e : QEntry}
    {rest : List QEntry} {st st2 : SimState}
    (hI : TraceInv st) (hq : st.queue = e :: rest)
    (h : execEvent cfg e { st with queue := rest } = Except.ok st2) :
    TraceInv st2 := by
  have hmem : e ∈ st.queue := by
    rw [hq]
    exact List.mem_cons_self e rest
  have hsorted := hI.sortedQ
  rw [hq, List.sorted_cons] at hsorted
  have hsubset : ∀ x ∈ rest, x ∈ st.queue := fun x hx => by
    rw [hq]
    exact List.mem_cons_of_mem _ hx
  obtain ⟨tm, pr, eid, ev⟩ := e
  cases ev with
  | daily d =>
    have hmid := midTrace_pop_daily hI hq rfl
    unfold execEvent at h
    dsimp only [] at h
    split_ifs at h with hd
    · exact traceInv_runDayBody hmid h
    · injection h with h
      subst h
      refine ⟨hsorted.2, ?_, ?_, hI.tr_sorted, ?_⟩
      · intro x hx d2 hev2
        exact hI.daily_time x (hsubset x hx) d2 hev2
      · intro x hx dest qty delay sd hev2
        exact hI.delay_nonneg x (hsubset x hx) dest qty delay sd hev2
      · intro t ht x hx
        exact hI.tr_le_q t ht x (hsubset x hx)
  | arrivalInit dest qty delay sd =>
    unfold execEvent at h
    dsimp only [] at h
    injection h with h
    subst h
    have hdel : (0 : ℚ) ≤ delay := hI.delay_nonneg _ hmem dest qty delay sd rfl
    refine ⟨sorted_insertQ _ hsorted.2, ?_, ?_, hI.tr_sorted, ?_⟩
    · intro x hx d2 hev2
      rcases mem_insertQ.mp hx with h1 | h2
      · subst h1
        exact absurd hev2 (by simp)
      · exact hI.daily_time x (hsubset x h2) d2 hev2
    · intro x hx dest2 qty2 delay2 sd2 hev2
      rcases mem_insertQ.mp hx with h1 | h2
      · subst h1
        exact absurd hev2 (by simp)
      · exact hI.delay_nonneg x (hsubset x h2) dest2 qty2 delay2 sd2 hev2
    · intro t ht x hx
      rcases mem_insertQ.mp hx with h1 | h2
      · subst h1
        calc t ≤ tm := hI.tr_le_q t ht _ hmem
        _ ≤ tm + delay := le_add_of_nonneg_right hdel
      · exact hI.tr_le_q t ht x (hsubset x h2)
  | arrival dest qty sd =>
    unfold execEvent at h
    dsimp only [] at h
    injection h with h
    subst h
    have hque : ∀ loc q2,
        (({ st with queue := rest }.addOnOrder loc (-q2)).receiveAt loc q2).queue
          = rest := fun loc q2 => by
      rw [receiveAt_queue, addOnOrder_queue]
    have htra : ∀ loc q2,
        (({ st with queue := rest }.addOnOrder loc (-q2)).receiveAt loc q2).trace
          = st.trace := fun loc q2 => by
      rw [receiveAt_trace, addOnOrder_trace]
    refine ⟨?_, ?_, ?_, ?_, ?_⟩
    · show List.Sorted qle
        ((({ st with queue := rest }.addOnOrder dest (-qty)).receiveAt dest qty).queue)
      rw [hque]
      exact hsorted.2
    · intro x hx d2 hev2
      rw [hque] at hx
      exact hI.daily_time x (hsubset x hx) d2 hev2
    · intro x hx dest2 qty2 delay2 sd2 hev2
      rw [hque] at hx
      exact hI.delay_nonneg x (hsubset x hx) dest2 qty2 delay2 sd2 hev2
    · show List.Sorted _ (((({ st with queue := rest }.addOnOrder dest
          (-qty)).receiveAt dest qty).trace
            ++ [TraceEvent.arrivalApplied dest qty sd tm]).map traceTime)
      rw [htra, List.map_append]
      exact sorted_append_one hI.tr_sorted
        (fun t ht => hI.tr_le_q t ht _ hmem)
    · intro t ht x hx
      rw [hque] at hx
      rw [htra, List.map_append] at ht
      rcases List.mem_append.mp ht with h1 | h2
      · exact hI.tr_le_q t h1 x (hsubset x hx)
      · simp only [List.map_cons, List.map_nil, List.mem_singleton] at h2
        subst h2
        exact qle_time_le (hsorted.1 x hx)

/-- One engine step preserves the ordering invariant. -/
theorem traceInv_engineStep {cfg : SimulationConfig} {st st2 : SimState}
    (hI : TraceInv st) (h : engineStep cfg st st2) : TraceInv st2 := by
  obtain ⟨e, rest, hq, ht, hex⟩ := h
  exact traceInv_execEvent hI hq hex

/-- The ordering invariant holds at every reachable state. -/
theorem traceInv_reachable {cfg : SimulationConfig} {s0 st : SimState}
    (h0 : TraceInv s0) (h : Reachable cfg s0 st) : TraceInv st := by
  induction h with
  | refl => exact h0
  | tail hab hbc ih => exact traceInv_engineStep ih hbc

/-- The ordering invariant holds initially. -/
theorem traceInv_initState (factory : Option ℤ → NpRng)
    (cfg : SimulationConfig) : TraceInv (initState factory cfg) := by
  refine ⟨?_, ?_, ?_, ?_, ?_⟩
  · exact List.sorted_singleton _
  · intro e he d hev
    simp only [initState, List.mem_singleton] at he
    subst he
    injection hev with hd
    subst hd
    rfl
  · intro e he dest qty delay sd hev
    simp only [initState, List.mem_singleton] at he
    subst he
    exact absurd hev (by simp)
  · exact List.sorted_nil
  · intro t ht
    exact absurd ht (by simp [initState])

/-- A completed engine loop only visits reachable states. -/
theorem runLoop_reachable {cfg : SimulationConfig} :
    ∀ (fuel : ℕ) (s0 st : SimState), runLoop cfg fuel s0 = Except.ok st →
      Reachable cfg s0 st := by
  intro fuel
  induction fuel with
  | zero =>
    intro s0 st h
    exact absurd h (by simp [runLoop])
  | succ n ih =>
    intro s0 st h
    unfold runLoop at h
    cases hq : s0.queue with
    | nil =>
      rw [hq] at h
      dsimp only [] at h
      injection h with h
      subst h
      exact Relation.ReflTransGen.refl
    | cons e rest =>
      rw [hq] at h
      dsimp only [] at h
      split_ifs at h with ht
      · injection h with h
        subst h
        exact Relation.ReflTransGen.refl
      · cases hex : execEvent cfg e { s0 with queue := rest } with
        | error err =>
          rw [hex] at h
          exact absurd h (by simp)
        | ok st1 =>
          rw [hex] at h
          exact Relation.ReflTransGen.head
            ⟨e, rest, hq, not_le.mp ht, hex⟩ (ih st1 st h)

/-- C1 (amended): in every completed run, every arrival whose due time is
strictly before a day's boundary is applied before that day's demand draw.
(An arrival due *exactly* at the boundary can be applied after that day's
draw — see the counterexample — because simpy assigns the delivery timeout
its event id only when the arrival process initializes, after the previous
day's body has scheduled the resumption timeout.) -/
theorem claim_C1_amended (factory : Option ℤ → NpRng) (cfg : SimulationConfig)
    (tr : List TraceEvent)
    (h : (run_single_state factory cfg).map (fun s => s.trace) = Except.ok tr) :
    ∀ (i j : ℕ) (d dq : ℤ) (dest : Location) (q sd : ℤ) (due : ℚ),
      tr[i]? = some (TraceEvent.demandDrawn d dq) →
      tr[j]? = some (TraceEvent.arrivalApplied dest q sd due) →
      due < (d : ℚ) → j < i := by
  unfold run_single_state at h
  split_ifs at h with hd
  · exact absurd h (by simp [Except.map])
  · cases hr : runLoop cfg (simFuel cfg) (initState factory cfg) with
    | error e =>
      rw [hr] at h
      exact absurd h (by simp [Except.map])
    | ok st =>
      rw [hr] at h
      simp only [Except.map] at h
      injection h with h
      subst h
      have hT := traceInv_reachable (traceInv_initState factory cfg)
        (runLoop_reachable _ _ _ hr)
      intro i j d dq dest q sd due hi hj hlt
      by_contra hji
      push_neg at hji
      obtain ⟨hilen, hie⟩ := List.getElem?_eq_some_iff.mp hi
      obtain ⟨hjlen, hje⟩ := List.getElem?_eq_some_iff.mp hj
      rcases lt_or_eq_of_le hji with hij | hij
      · have hrel := List.pairwise_iff_get.mp hT.tr_sorted
          ⟨i, by rw [List.length_map]; exact hilen⟩
          ⟨j, by rw [List.length_map]; exact hjlen⟩
          (Fin.mk_lt_mk.mpr hij)
        rw [List.get_map, List.get_map] at hrel
        have hie2 : st.trace.get ⟨i, hilen⟩ = TraceEvent.demandDrawn d dq := by
          rw [List.get_eq_getElem]
          exact hie
        have hje2 : st.trace.get ⟨j, hjlen⟩
            = TraceEvent.arrivalApplied dest q sd due := by
          rw [List.get_eq_getElem]
          exact hje
        rw [hie2, hje2] at hrel
        exact absurd hrel (not_le.mpr hlt)
      · subst hij
        rw [hi] at hj
        exact absurd hj (by simp)

/-- A concrete run with a deterministic half-day lead time: arrivals fall
due strictly inside day 0, before the day-1 boundary. -/
def c1wCfg : SimulationConfig := { cexCfg with lead_time_mean_days := 1 / 2 }

/-- The trace of that run. -/
def c1wTrace : List TraceEvent :=
  [TraceEvent.demandDrawn 0 5,
   TraceEvent.arrivalApplied Location.store 5 0 (1 / 2),
   TraceEvent.arrivalApplied Location.store 10 0 (1 / 2),
   TraceEvent.demandDrawn 1 5]

/-- C1, witness: in the concrete half-day-lead run, the arrival due at 0.5
(index 1) is applied before the day-1 demand draw (index 3). -/
theorem claim_C1_witness :
    (run_single_state cexFactory c1wCfg).map (fun s => s.trace)
        = Except.ok c1wTrace
    ∧ (1 : ℕ) < 3 :=
  ⟨by with_unfolding_all decide,
   claim_C1_amended cexFactory c1wCfg c1wTrace (by with_unfolding_all decide)
     3 1 1 5 Location.store 5 0 (1 / 2) (by with_unfolding_all decide)
     (by with_unfolding_all decide) (by with_unfolding_all decide)⟩

/-- Bounds of one demand consumption: stocks stay non-negative, the
fulfilment counter stays within the demand counter, and the stockout counter
grows by at most one. -/
theorem consume_demand_bounds (q : ℤ) {s : Store}
    (h1 : 0 ≤ s.inventory.on_hand) (h2 : 0 ≤ s.inventory.backorder)
    (h3 : 0 ≤ s.fulfilled_units) (h4 : s.fulfilled_units ≤ s.demand_units)
    (h5 : 0 ≤ s.stockout_days) :
    0 ≤ (s.consume_demand q).inventory.on_hand
    ∧ 0 ≤ (s.consume_demand q).inventory.backorder
    ∧ 0 ≤ (s.consume_demand q).fulfilled_units
    ∧ (s.consume_demand q).fulfilled_units ≤ (s.consume_demand q).demand_units
    ∧ 0 ≤ (s.consume_demand q).stockout_days
    ∧ (s.consume_demand q).stockout_days ≤ s.stockout_days + 1 := by
  unfold Store.consume_demand
  dsimp only []
  refine ⟨?_, ?_, ?_, ?_, ?_, ?_⟩ <;> (try split_ifs) <;> omega

/-- Bounds of one store receipt: stocks stay non-negative; the statistic
counters are untouched. -/
theorem store_receive_bounds (q : ℤ) {s : Store}
    (h1 : 0 ≤ s.inventory.on_hand) (h2 : 0 ≤ s.inventory.backorder) :
    0 ≤ (s.receive q).inventory.on_hand
    ∧ 0 ≤ (s.receive q).inventory.backorder := by
  unfold Store.receive
  split_ifs with hq hb <;> (try dsimp only []) <;> constructor <;> omega

/-- Store receipts never touch the statistic counters. -/
theorem store_receive_stats (s : Store) (q : ℤ) :
    (s.receive q).demand_units = s.demand_units
    ∧ (s.receive q).fulfilled_units = s.fulfilled_units
    ∧ (s.receive q).stockout_days = s.stockout_days := by
  unfold Store.receive
  split_ifs <;> exact ⟨rfl, rfl, rfl⟩

/-- A DC receipt keeps on-hand stock non-negative. -/
theorem dc_receive_on_hand (q : ℤ) {dc : DistributionCenter}
    (h1 : 0 ≤ dc.inventory.on_hand) :
    0 ≤ (dc.receive q).inventory.on_hand := by
  unfold DistributionCenter.receive
  split_ifs with hq <;> (try dsimp only []) <;> omega

/-- Shipping from the DC keeps on-hand stock non-negative. -/
theorem ship_to_store_on_hand (q : ℤ) {dc : DistributionCenter}
    (h1 : 0 ≤ dc.inventory.on_hand) :
    0 ≤ (dc.ship_to_store q).2.inventory.on_hand := by
  unfold DistributionCenter.ship_to_store
  split_ifs with hq <;> (try dsimp only []) <;> omega

/-- The per-day inventory/KPI invariant of the run: non-negative stocks,
fulfilment within demand, at most one stockout day per recorded row,
non-negative recorded rows, no more rows than the horizon, and exactly one
pending daily event sitting at the boundary of the next day to run (= the
number of rows recorded so far). -/
structure BodyInv (cfg : SimulationConfig) (st : SimState) : Prop where
  oh_s : 0 ≤ st.store.inventory.on_hand
  bo_s : 0 ≤ st.store.inventory.backorder
  oh_dc : 0 ≤ st.dc.inventory.on_hand
  ful0 : 0 ≤ st.store.fulfilled_units
  ful_le : st.store.fulfilled_units ≤ st.store.demand_units
  so0 : 0 ≤ st.store.stockout_days
  so_le : st.store.stockout_days ≤ (st.timeseries.length : ℤ)
  rows : ∀ r ∈ st.timeseries,
    0 ≤ r.store_on_hand ∧ 0 ≤ r.dc_on_hand ∧ 0 ≤ r.store_backorder
  len_le : (st.timeseries.length : ℤ) ≤ cfg.days
  daily_one : st.queue.countP isDaily = 1
  daily_shape : ∀ e ∈ st.queue, ∀ d, e.ev = SimEvent.daily d →
    d = (st.timeseries.length : ℤ) ∧ e.time = (d : ℚ)

/-- The same invariant in the middle of day `d`'s body: the day's row is not
yet recorded, the daily event is popped, and the stockout counter may be one
ahead of the recorded rows. -/
structure MidBody (cfg : SimulationConfig) (d : ℤ) (st : SimState) : Prop where
  oh_s : 0 ≤ st.store.inventory.on_hand
  bo_s : 0 ≤ st.store.inventory.backorder
  oh_dc : 0 ≤ st.dc.inventory.on_hand
  ful0 : 0 ≤ st.store.fulfilled_units
  ful_le : st.store.fulfilled_units ≤ st.store.demand_units
  so0 : 0 ≤ st.store.stockout_days
  so_le1 : st.store.stockout_days ≤ (st.timeseries.length : ℤ) + 1
  rows : ∀ r ∈ st.timeseries,
    0 ≤ r.store_on_hand ∧ 0 ≤ r.dc_on_hand ∧ 0 ≤ r.store_backorder
  len_eq : (st.timeseries.length : ℤ) = d
  d_lt : d < cfg.days
  no_daily : st.queue.countP isDaily = 0

/-- Mid-body invariance under updates that change none of the tracked
projections. -/
theorem midBody_congr {cfg : SimulationConfig} {d : ℤ} {st st2 : SimState}
    (hI : MidBody cfg d st)
    (h1 : st2.store.inventory.on_hand = st.store.inventory.on_hand)
    (h2 : st2.store.inventory.backorder = st.store.inventory.backorder)
    (h3 : st2.dc.inventory.on_hand = st.dc.inventory.on_hand)
    (h4 : st2.store.fulfilled_units = st.store.fulfilled_units)
    (h5 : st2.store.demand_units = st.store.demand_units)
    (h6 : st2.store.stockout_days = st.store.stockout_days)
    (h7 : st2.timeseries = st.timeseries)
    (h8 : st2.queue.countP isDaily = st.queue.countP isDaily) :
    MidBody cfg d st2 := by
  refine ⟨?_, ?_, ?_, ?_, ?_, ?_, ?_, ?_, ?_, hI.d_lt, ?_⟩
  · rw [h1]; exact hI.oh_s
  · rw [h2]; exact hI.bo_s
  · rw [h3]; exact hI.oh_dc
  · rw [h4]; exact hI.ful0
  · rw [h4, h5]; exact hI.ful_le
  · rw [h6]; exact hI.so0
  · rw [h6, h7]; exact hI.so_le1
  · rw [h7]; exact hI.rows
  · rw [h7]; exact hI.len_eq
  · rw [h8]; exact hI.no_daily

/-- Scheduling a shipment mid-body preserves the inventory invariant. -/
theorem midBody_sched {cfg : SimulationConfig} {d : ℤ} {loc : Location}
    {qty : ℤ} {st st2 : SimState} (hI : MidBody cfg d st)
    (h : schedule_inbound_shipment cfg (d : ℚ) d loc qty st = Except.ok st2) :
    MidBody cfg d st2 := by
  by_cases hq : qty ≤ 0
  · unfold schedule_inbound_shipment at h
    rw [if_pos hq] at h
    injection h with h
    subst h
    exact hI
  · obtain ⟨delay, rng2, hdel, hst⟩ :=
      schedule_inbound_effect cfg (d : ℚ) d loc qty st st2 (not_le.mp hq) h
    subst hst
    refine midBody_congr hI ?_ ?_ ?_ ?_ ?_ ?_ ?_ ?_
    · cases loc <;> rfl
    · cases loc <;> rfl
    · cases loc <;> rfl
    · cases loc <;> rfl
    · cases loc <;> rfl
    · cases loc <;> rfl
    · cases loc <;> rfl
    · show (insertQ _ st.queue).countP isDaily = _
      simp [countP_insertQ, List.countP_cons, isDaily]

/-- `receiveAt` and `addOnOrder` never touch the timeseries. -/
theorem receiveAt_timeseries (st : SimState) (loc : Location) (qty : ℤ) :
    (st.receiveAt loc qty).timeseries = st.timeseries := by
  cases loc <;> rfl

/-- Step 1–2 of the day body: demand consumption keeps the inventory
invariant, pushing the stockout counter at most one past the recorded rows. -/
theorem midBody_doDemand {cfg : SimulationConfig} {d : ℤ} {st st2 : SimState}
    (hI : MidBody cfg d st)
    (hso : st.store.stockout_days ≤ (st.timeseries.length : ℤ))
    (h : doDemand cfg d st = Except.ok st2) : MidBody cfg d st2 := by
  unfold doDemand at h
  cases hp : poisson_demand st.rng
      (cfg.demand_lambda_per_day * demand_multiplier_for_day cfg d) with
  | error e =>
    rw [hp] at h
    exact absurd h (by simp)
  | ok qp =>
    rw [hp] at h
    dsimp only [] at h
    injection h with h
    subst h
    obtain ⟨b1, b2, b3, b4, b5, b6⟩ :=
      consume_demand_bounds qp.1 hI.oh_s hI.bo_s hI.ful0 hI.ful_le hI.so0
    refine ⟨b1, b2, hI.oh_dc, b3, b4, b5, ?_, hI.rows, hI.len_eq, hI.d_lt,
      hI.no_daily⟩
    show (st.store.consume_demand qp.1).stockout_days
      ≤ (st.timeseries.length : ℤ) + 1
    omega

/-- Step 3 of the day body preserves the inventory invariant. -/
theorem midBody_doBackorder {cfg : SimulationConfig} {d : ℤ}
    {st st2 : SimState} (hI : MidBody cfg d st)
    (h : doBackorderClearing cfg d st = Except.ok st2) : MidBody cfg d st2 := by
  unfold doBackorderClearing at h
  split_ifs at h with h1
  · dsimp only [] at h
    have hmid : MidBody cfg d { st with
        dc := (st.dc.ship_to_store st.store.inventory.backorder).2 } := by
      refine ⟨hI.oh_s, hI.bo_s, ?_, hI.ful0, hI.ful_le, hI.so0, hI.so_le1,
        hI.rows, hI.len_eq, hI.d_lt, hI.no_daily⟩
      exact ship_to_store_on_hand _ hI.oh_dc
    by_cases h2 : (st.dc.ship_to_store st.store.inventory.backorder).1 > 0
    · rw [if_pos h2] at h
      exact midBody_sched hmid h
    · rw [if_neg h2] at h
      injection h with h
      subst h
      exact hmid
  · injection h with h
    subst h
    exact hI

/-- Step 4 of the day body preserves the inventory invariant. -/
theorem midBody_doStoreOrder {cfg : SimulationConfig} {d : ℤ}
    {st st2 : SimState} (hI : MidBody cfg d st)
    (h : doStoreOrder cfg d st = Except.ok st2) : MidBody cfg d st2 := by
  unfold doStoreOrder at h
  cases ho : order_up_to_sS st.store.inventory.inventory_position
      cfg.s_store cfg.S_store with
  | error e =>
    rw [ho] at h
    exact absurd h (by simp)
  | ok oq =>
    rw [ho] at h
    dsimp only [] at h
    by_cases h1 : oq > 0
    · rw [if_pos h1] at h
      set stA : SimState := { st with
        store := { st.store with orders_placed := st.store.orders_placed + 1 } }
        with hstA
      have hmidA : MidBody cfg d stA :=
        midBody_congr hI rfl rfl rfl rfl rfl rfl rfl rfl
      have hmid2 : MidBody cfg d { stA with dc := (stA.dc.ship_to_store oq).2 } := by
        refine ⟨hmidA.oh_s, hmidA.bo_s, ?_, hmidA.ful0, hmidA.ful_le, hmidA.so0,
          hmidA.so_le1, hmidA.rows, hmidA.len_eq, hmidA.d_lt, hmidA.no_daily⟩
        exact ship_to_store_on_hand _ hmidA.oh_dc
      have haddU : ∀ s : SimState, MidBody cfg d s → MidBody cfg d
          (if oq - (stA.dc.ship_to_store oq).1 > 0 then
            { s with store := { s.store with
                inventory := { s.store.inventory with
                  backorder := s.store.inventory.backorder
                    + (oq - (stA.dc.ship_to_store oq).1) } } }
          else s) := by
        intro s hs
        split_ifs with hu
        · refine ⟨hs.oh_s, ?_, hs.oh_dc, hs.ful0, hs.ful_le, hs.so0, hs.so_le1,
            hs.rows, hs.len_eq, hs.d_lt, hs.no_daily⟩
          have := hs.bo_s
          show (0 : ℤ) ≤ s.store.inventory.backorder + _
          omega
        · exact hs
      by_cases h2 : (stA.dc.ship_to_store oq).1 > 0
      · rw [if_pos h2] at h
        cases hs : schedule_inbound_shipment cfg (d : ℚ) d Location.store
            (stA.dc.ship_to_store oq).1
            { stA with dc := (stA.dc.ship_to_store oq).2 } with
        | error e =>
          rw [hs] at h
          exact absurd h (by simp)
        | ok st3 =>
          rw [hs] at h
          dsimp only [] at h
          injection h with h
          subst h
          exact haddU st3 (midBody_sched hmid2 hs)
      · rw [if_neg h2] at h
        injection h with h
        subst h
        exact haddU _ hmid2
    · rw [if_neg h1] at h
      injection h with h
      subst h
      exact hI

/-- Step 5 of the day body preserves the inventory invariant. -/
theorem midBody_doDcOrder {cfg : SimulationConfig} {d : ℤ} {st st2 : SimState}
    (hI : MidBody cfg d st) (h : doDcOrder cfg d st = Except.ok st2) :
    MidBody cfg d st2 := by
  unfold doDcOrder at h
  cases ho : order_up_to_sS st.dc.inventory.inventory_position
      cfg.s_dc cfg.S_dc with
  | error e =>
    rw [ho] at h
    exact absurd h (by simp)
  | ok oq =>
    rw [ho] at h
    dsimp only [] at h
    split_ifs at h with h1
    · have hmid : MidBody cfg d { st with
          dc := { st.dc with orders_placed := st.dc.orders_placed + 1 } } :=
        midBody_congr hI rfl rfl rfl rfl rfl rfl rfl rfl
      exact midBody_sched hmid h
    · injection h with h
      subst h
      exact hI

/-- Closing the day: the recorded row is a snapshot of non-negative stocks,
the row count grows by one (staying within the horizon), and the next daily
resumption is queued at its boundary. -/
theorem bodyInv_record_advance {cfg : SimulationConfig} {d : ℤ}
    {st : SimState} (hI : MidBody cfg d st) :
    BodyInv cfg (doAdvance d (doRecord d st)) := by
  unfold doAdvance doRecord
  dsimp only []
  refine ⟨hI.oh_s, hI.bo_s, hI.oh_dc, hI.ful0, hI.ful_le, hI.so0, ?_, ?_, ?_,
    ?_, ?_⟩
  · have h1 := hI.so_le1
    simp only [List.length_append, List.length_singleton]
    omega
  · intro r hr
    rcases List.mem_append.mp hr with h1 | h2
    · exact hI.rows r h1
    · rw [List.mem_singleton] at h2
      subst h2
      refine ⟨?_, ?_, ?_⟩
      · show (0 : ℚ) ≤ (st.store.inventory.on_hand : ℚ)
        exact_mod_cast hI.oh_s
      · show (0 : ℚ) ≤ (st.dc.inventory.on_hand : ℚ)
        exact_mod_cast hI.oh_dc
      · show (0 : ℚ) ≤ (st.store.inventory.backorder : ℚ)
        exact_mod_cast hI.bo_s
  · have h1 := hI.len_eq
    have h2 := hI.d_lt
    simp only [List.length_append, List.length_singleton]
    omega
  · simp [countP_insertQ, List.countP_cons, isDaily, hI.no_daily]
  · intro e he d2 hev
    rcases mem_insertQ.mp he with h1 | h2
    · subst h1
      injection hev with hd2
      subst hd2
      constructor
      · have h1 := hI.len_eq
        simp only [List.length_append, List.length_singleton]
        omega
      · rfl
    · have hnd := List.countP_eq_zero.mp hI.no_daily e h2
      rw [isDaily, hev] at hnd
      exact absurd rfl hnd

/-- Popping the daily resumption: its day equals the recorded row count, it
is before the horizon, and no other daily event remains queued. -/
theorem midBody_pop_daily {cfg : SimulationConfig} {st : SimState} {e : QEntry}
    {rest : List QEntry} {d : ℤ} (hI : BodyInv cfg st)
    (hq : st.queue = e :: rest) (hev : e.ev = SimEvent.daily d)
    (ht : e.time < (cfg.days : ℚ)) :
    MidBody cfg d { st with queue := rest }
    ∧ st.store.stockout_days ≤ (st.timeseries.length : ℤ) := by
  have hshape := hI.daily_shape e
    (by rw [hq]; exact List.mem_cons_self e rest) d hev
  have hd_lt : d < cfg.days := by
    have h2 := hshape.2
    rw [h2] at ht
    exact_mod_cast ht
  have hcount : rest.countP isDaily = 0 := by
    have hone := hI.daily_one
    rw [hq, List.countP_cons] at hone
    rw [isDaily, hev] at hone
    simp at hone
    exact List.countP_eq_zero.mpr fun a ha => by simp [hone a ha]
  refine ⟨⟨hI.oh_s, hI.bo_s, hI.oh_dc, hI.ful0, hI.ful_le, hI.so0, ?_,
    hI.rows, hshape.1.symm, hd_lt, hcount⟩, hI.so_le⟩
  show st.store.stockout_days ≤ (st.timeseries.length : ℤ) + 1
  have h1 := hI.so_le
  omega

/-- The whole day body carries the inventory invariant from the popped daily
event to the next day's queued state. -/
theorem bodyInv_runDayBody {cfg : SimulationConfig} {d : ℤ} {st st2 : SimState}
    (hI : MidBody cfg d st)
    (hso : st.store.stockout_days ≤ (st.timeseries.length : ℤ))
    (h : runDayBody cfg d st = Except.ok st2) : BodyInv cfg st2 := by
  unfold runDayBody at h
  cases h1 : doDemand cfg d st with
  | error e =>
    rw [h1] at h
    exact absurd h (by simp)
  | ok stA =>
    rw [h1] at h
    dsimp only [] at h
    cases h2 : doBackorderClearing cfg d stA with
    | error e =>
      rw [h2] at h
      exact absurd h (by simp)
    | ok stB =>
      rw [h2] at h
      dsimp only [] at h
      cases h3 : doStoreOrder cfg d stB with
      | error e =>
        rw [h3] at h
        exact absurd h (by simp)
      | ok stC =>
        rw [h3] at h
        dsimp only [] at h
        cases h4 : doDcOrder cfg d stC with
        | error e =>
          rw [h4] at h
          exact absurd h (by simp)
        | ok stD =>
          rw [h4] at h
          dsimp only [] at h
          injection h with h
          subst h
          exact bodyInv_record_advance
            (midBody_doDcOrder
              (midBody_doStoreOrder
                (midBody_doBackorder (midBody_doDemand hI hso h1) h2) h3) h4)

/-- Executing any popped event preserves the inventory invariant. -/
theorem bodyInv_execEvent {cfg : SimulationConfig} {e : QEntry}
    {rest : List QEntry} {st st2 : SimState}
    (hI : BodyInv cfg st) (hq : st.queue = e :: rest)
    (ht : e.time < (cfg.days : ℚ))
    (h : execEvent cfg e { st with queue := rest } = Except.ok st2) :
    BodyInv cfg st2 := by
  have hsubset : ∀ x ∈ rest, x ∈ st.queue := fun x hx => by
    rw [hq]
    exact List.mem_cons_of_mem _ hx
  obtain ⟨tm, pr, eid, ev⟩ := e
  cases ev with
  | daily d =>
    obtain ⟨hmid, hso⟩ := midBody_pop_daily hI hq rfl ht
    unfold execEvent at h
    dsimp only [] at h
    rw [if_pos hmid.d_lt] at h
    exact bodyInv_runDayBody hmid hso h
  | arrivalInit dest qty delay sd =>
    unfold execEvent at h
    dsimp only [] at h
    injection h with h
    subst h
    have hrest1 : rest.countP isDaily = 1 := by
      have hone := hI.daily_one
      rw [hq, List.countP_cons] at hone
      simpa [isDaily] using hone
    refine ⟨hI.oh_s, hI.bo_s, hI.oh_dc, hI.ful0, hI.ful_le, hI.so0, hI.so_le,
      hI.rows, hI.len_le, ?_, ?_⟩
    · show (insertQ _ rest).countP isDaily = 1
      simp [countP_insertQ, List.countP_cons, isDaily, hrest1]
    · intro x hx d2 hev2
      rcases mem_insertQ.mp hx with h1 | h2
      · subst h1
        exact absurd hev2 (by simp)
      · exact hI.daily_shape x (hsubset x h2) d2 hev2
  | arrival dest qty sd =>
    unfold execEvent at h
    dsimp only [] at h
    injection h with h
    subst h
    have hrest1 : rest.countP isDaily = 1 := by
      have hone := hI.daily_one
      rw [hq, List.countP_cons] at hone
      simpa [isDaily] using hone
    cases dest with
    | store =>
      have hb := @store_receive_bounds qty
        { st.store with inventory := { st.store.inventory with
            on_order := st.store.inventory.on_order + -qty } } hI.oh_s hI.bo_s
      refine ⟨?_, ?_, ?_, ?_, ?_, ?_, ?_, ?_, ?_, ?_, ?_⟩
      · simp only [SimState.receiveAt, SimState.addOnOrder]
        exact hb.1
      · simp only [SimState.receiveAt, SimState.addOnOrder]
        exact hb.2
      · simp only [SimState.receiveAt, SimState.addOnOrder]
        exact hI.oh_dc
      · simp only [SimState.receiveAt, SimState.addOnOrder]
        rw [(store_receive_stats _ qty).2.1]
        exact hI.ful0
      · simp only [SimState.receiveAt, SimState.addOnOrder]
        rw [(store_receive_stats _ qty).2.1, (store_receive_stats _ qty).1]
        exact hI.ful_le
      · simp only [SimState.receiveAt, SimState.addOnOrder]
        rw [(store_receive_stats _ qty).2.2]
        exact hI.so0
      · simp only [SimState.receiveAt, SimState.addOnOrder]
        rw [(store_receive_stats _ qty).2.2]
        exact hI.so_le
      · simp only [SimState.receiveAt, SimState.addOnOrder]
        exact hI.rows
      · simp only [SimState.receiveAt, SimState.addOnOrder]
        exact hI.len_le
      · simp only [SimState.receiveAt, SimState.addOnOrder]
        exact hrest1
      · intro x hx d2 hev2
        simp only [SimState.receiveAt, SimState.addOnOrder] at hx ⊢
        exact hI.daily_shape x (hsubset x hx) d2 hev2
    | dc =>
      refine ⟨?_, ?_, ?_, ?_, ?_, ?_, ?_, ?_, ?_, ?_, ?_⟩
      · simp only [SimState.receiveAt, SimState.addOnOrder]
        exact hI.oh_s
      · simp only [SimState.receiveAt, SimState.addOnOrder]
        exact hI.bo_s
      · simp only [SimState.receiveAt, SimState.addOnOrder]
        exact dc_receive_on_hand qty hI.oh_dc
      · simp only [SimState.receiveAt, SimState.addOnOrder]
        exact hI.ful0
      · simp only [SimState.receiveAt, SimState.addOnOrder]
        exact hI.ful_le
      · simp only [SimState.receiveAt, SimState.addOnOrder]
        exact hI.so0
      · simp only [SimState.receiveAt, SimState.addOnOrder]
        exact hI.so_le
      · simp only [SimState.receiveAt, SimState.addOnOrder]
        exact hI.rows
      · simp only [SimState.receiveAt, SimState.addOnOrder]
        exact hI.len_le
      · simp only [SimState.receiveAt, SimState.addOnOrder]
        exact hrest1
      · intro x hx d2 hev2
        simp only [SimState.receiveAt, SimState.addOnOrder] at hx ⊢
        exact hI.daily_shape x (hsubset x hx) d2 hev2

/-- One engine step preserves the inventory invariant. -/
theorem bodyInv_engineStep {cfg : SimulationConfig} {st st2 : SimState}
    (hI : BodyInv cfg st) (h : engineStep cfg st st2) : BodyInv cfg st2 := by
  obtain ⟨e, rest, hq, ht, hex⟩ := h
  exact bodyInv_execEvent hI hq ht hex

/-- The inventory invariant holds at every reachable state. -/
theorem bodyInv_reachable {cfg : SimulationConfig} {s0 st : SimState}
    (h0 : BodyInv cfg s0) (h : Reachable cfg s0 st) : BodyInv cfg st := by
  induction h with
  | refl => exact h0
  | tail hab hbc ih => exact bodyInv_engineStep ih hbc

/-- The inventory invariant holds initially when the horizon is non-negative
and both initial stocks are non-negative. -/
theorem bodyInv_initState (factory : Option ℤ → NpRng)
    (cfg : SimulationConfig) (h0 : 0 ≤ cfg.days)
    (hs : 0 ≤ cfg.initial_on_hand_store) (hdc : 0 ≤ cfg.initial_on_hand_dc) :
    BodyInv cfg (initState factory cfg) := by
  refine ⟨hs, le_rfl, hdc, le_rfl, le_rfl, le_rfl, ?_, ?_, ?_, ?_, ?_⟩
  · exact le_rfl
  · intro r hr
    exact absurd hr (by simp [initState])
  · simpa [initState] using h0
  · rfl
  · intro e he d hev
    simp only [initState, List.mem_singleton] at he
    subst he
    injection hev with hd
    subst hd
    exact ⟨rfl, rfl⟩

/-- C7: for every configuration with a horizon of at least one day and
non-negative initial stocks, every completed run satisfies: every recorded
timeseries row has non-negative store on-hand, DC on-hand and store
backorder; fulfilled units lie between 0 and demand units; and the reported
service level and fill rate both lie in [0, 1]. -/
theorem claim_C7_invariants (factory : Option ℤ → NpRng)
    (cfg : SimulationConfig) (res : SimulationResult)
    (hdays : 1 ≤ cfg.days) (hs : 0 ≤ cfg.initial_on_hand_store)
    (hdc : 0 ≤ cfg.initial_on_hand_dc)
    (h : run_single factory cfg = Except.ok res) :
    (∀ r ∈ res.timeseries,
      0 ≤ r.store_on_hand ∧ 0 ≤ r.dc_on_hand ∧ 0 ≤ r.store_backorder)
    ∧ 0 ≤ res.kpis.fulfilled_units
    ∧ res.kpis.fulfilled_units ≤ res.kpis.demand_units
    ∧ 0 ≤ res.kpis.service_level ∧ res.kpis.service_level ≤ 1
    ∧ 0 ≤ res.kpis.fill_rate ∧ res.kpis.fill_rate ≤ 1 := by
  unfold run_single run_single_state at h
  have hdint : (0 : ℤ) < cfg.days := lt_of_lt_of_le zero_lt_one hdays
  have hdpos : (0 : ℚ) < (cfg.days : ℚ) := by exact_mod_cast hdint
  rw [if_neg (not_le.mpr hdpos)] at h
  cases hr : runLoop cfg (simFuel cfg) (initState factory cfg) with
  | error e =>
    rw [hr] at h
    exact absurd h (by simp [Except.map])
  | ok st =>
    rw [hr] at h
    simp only [Except.map] at h
    injection h with h
    subst h
    have hB := bodyInv_reachable
      (bodyInv_initState factory cfg hdint.le hs hdc)
      (runLoop_reachable _ _ _ hr)
    have hso0 : (0 : ℚ) ≤ (st.store.stockout_days : ℚ) := by
      exact_mod_cast hB.so0
    have hsole : (st.store.stockout_days : ℚ) ≤ (cfg.days : ℚ) := by
      exact_mod_cast le_trans hB.so_le hB.len_le
    refine ⟨hB.rows, hB.ful0, hB.ful_le, ?_, ?_, ?_, ?_⟩
    · show (0 : ℚ) ≤ 1 - (if cfg.days > 0
        then (st.store.stockout_days : ℚ) / (cfg.days : ℚ) else 0)
      rw [if_pos hdint]
      have hdiv : (st.store.stockout_days : ℚ) / (cfg.days : ℚ) ≤ 1 :=
        (div_le_one hdpos).mpr hsole
      linarith
    · show 1 - (if cfg.days > 0
        then (st.store.stockout_days : ℚ) / (cfg.days : ℚ) else 0) ≤ 1
      rw [if_pos hdint]
      have hdiv : (0 : ℚ) ≤ (st.store.stockout_days : ℚ) / (cfg.days : ℚ) :=
        div_nonneg hso0 hdpos.le
      linarith
    · show (0 : ℚ) ≤ (if st.store.demand_units > 0
        then (st.store.fulfilled_units : ℚ) / (st.store.demand_units : ℚ)
        else 1)
      split_ifs with hdem
      · exact div_nonneg (by exact_mod_cast hB.ful0)
          (by exact_mod_cast hdem.le)
      · norm_num
    · show (if st.store.demand_units > 0
        then (st.store.fulfilled_units : ℚ) / (st.store.demand_units : ℚ)
        else 1) ≤ 1
      split_ifs with hdem
      · refine (div_le_one (by exact_mod_cast hdem)).mpr ?_
        exact_mod_cast hB.ful_le
      · norm_num

/-- C7, witness: the concrete two-day run's reported service level and fill
rate lie in [0, 1]. -/
theorem claim_C7_witness :
    0 ≤ c2res.kpis.service_level ∧ c2res.kpis.service_level ≤ 1
    ∧ 0 ≤ c2res.kpis.fill_rate ∧ c2res.kpis.fill_rate ≤ 1 :=
  (fun hh => ⟨hh.2.2.2.1, hh.2.2.2.2.1, hh.2.2.2.2.2.1, hh.2.2.2.2.2.2⟩)
    (claim_C7_invariants cexFactory cexCfg c2res (by decide) (by decide)
      (by decide) (by with_unfolding_all decide))
